import Mathlib

/-!
# Verification of the pywren `Executor` orchestrator (`pywren/executor.py`)

This file gives a shallow embedding, in Lean 4, of the orchestration logic of
`pywren/executor.py`: call-id formatting, payload aggregation (`agg_data`),
the argument-record construction and metadata merge of `invoke_with_keys`,
module-dependency packaging (`parse_module_dependencies`), the parallel
fan-out of `map`, and the `reduce` composition.

Modelling conventions:
* byte strings are `List Nat`;
* Python dicts holding the invocation arguments are association lists with
  Python's insertion/overwrite semantics;
* side effects (storage puts, backend invocations, serializer calls) are
  recorded in an explicit event trace;
* the worker pool is modelled by a schedule: an arbitrary permutation of the
  task indices giving the order in which task side effects hit the trace,
  while results are collected by submission index, as in the source;
* `raise` is modelled with `Except`; wall-clock timestamps are a fixed model
  parameter (`now`), since timing metadata is diagnostic only;
* the per-call bookkeeping dict `host_job_meta` (timings, sizes) is not
  modelled: per the design it is diagnostic and not part of correctness.

Collaborators that live outside `pywren/executor.py` (the serializer,
`create_mod_data`, storage key derivation, `MAX_AGG_DATA_SIZE`, the callset-id
generator, and the wait utility) are modelled as opaque parameters or, where a
claim depends on their behavior, from the specification; each such definition
is marked in its doc comment.
-/

namespace PyWrenSpec

/-- A byte string (Python `bytes`): a list of byte values. -/
abbrev ByteStr := List Nat

/-! ## Decimal formatting: the model of Python's `"{:05d}".format(i)` -/

/-- Base-10 digits of `n`, least-significant first (`[]` for `0`), with an
explicit fuel argument so the recursion is structural.  Any `fuel ≥ n` gives
the digits of `n`. -/
def digitsRevAux : Nat → Nat → List Nat
  | 0, _ => []
  | fuel + 1, n => if n = 0 then [] else n % 10 :: digitsRevAux fuel (n / 10)

/-- Base-10 digits of `n`, least-significant first; `[]` for `0`. -/
def digitsRev (n : Nat) : List Nat := digitsRevAux n n

/-- The character for one decimal digit. -/
def digitChar (d : Nat) : Char := Char.ofNat (48 + d)

/-- Model of Python's `"{:05d}".format(n)` (executor.py line 336): the decimal
representation of `n`, left-padded with `'0'` to at least five characters. -/
def format05 (n : Nat) : String :=
  let ds := (digitsRev n).reverse.map digitChar
  ⟨List.replicate (5 - ds.length) '0' ++ ds⟩

/-- Numeric value denoted by a decimal digit string (most significant digit
first), used to state that call ids are order-preserving sequence numbers. -/
def valueOfId (s : String) : Nat :=
  s.data.foldl (fun a c => 10 * a + (c.toNat - 48)) 0

/-! ## `Executor.agg_data` (executor.py lines 161-169) -/

/-- The ranges computed by the loop of `agg_data`: starting at offset `pos`,
each payload `d` contributes the inclusive range `(pos, pos + len(d) - 1)` and
advances `pos` by `len(d)`.  Endpoints are integers because Python's
`pos + l - 1` is `-1` for an empty payload at offset `0`. -/
def aggRanges : Int → List ByteStr → List (Int × Int)
  | _, [] => []
  | pos, d :: ds => (pos, pos + (d.length : Int) - 1) :: aggRanges (pos + (d.length : Int)) ds

/-- `Executor.agg_data`: concatenate the payloads (`b"".join`) and pair the
blob with the list of inclusive `(start, end)` byte ranges. -/
def agg_data (data_strs : List ByteStr) : ByteStr × List (Int × Int) :=
  (data_strs.flatten, aggRanges 0 data_strs)

/-- Python slicing `xs[a : b]` for the index forms reachable from `agg_data`'s
ranges: `a ≥ 0` and `b ≥ -1` (a negative `b` only arises as `end + 1 = 0` for
an empty payload at offset `0`, where the slice is empty). -/
def pySliceNN (xs : ByteStr) (a b : Int) : ByteStr :=
  (xs.take b.toNat).drop a.toNat

/-! ## Storage keys and the invocation argument record -/

/-- Modelled from the spec: key derivation lives in
`pywren/storage/storage_utils.py`, which is not part of this component's
source; §6 specifies all keys as pure, collision-free functions of
`(storage_prefix, callset_id, call_id)` (or of the callset id alone for the
function-package and aggregated-data keys, and of a user key for the
module-dependency cache). -/
inductive Key
  | dataKey (pfx callset call : String)
  | outputKey (pfx callset call : String)
  | statusKey (pfx callset call : String)
  | cancelKey (pfx callset call : String)
  | funcKey (pfx callset : String)
  | aggDataKey (pfx callset : String)
  | modKey (pfx userKey : String)
  deriving DecidableEq, Repr

/-- Values stored in the invocation argument dict. -/
inductive PyVal
  | str (s : String)
  | natV (n : Nat)
  | boolV (b : Bool)
  | keyV (k : Key)
  | byteRange (r : Option (Int × Int))
  | strDict (l : List (String × String))
  deriving DecidableEq, Repr

/-- A Python dict with string keys, as an insertion-ordered association list. -/
abbrev Dict := List (String × PyVal)

/-- Python `k in d`. -/
def dictMem (d : Dict) (k : String) : Bool := d.any (fun p => p.1 = k)

/-- Python `d[k] = v`: overwrite in place if the key is present, else append. -/
def dictSet (d : Dict) (k : String) (v : PyVal) : Dict :=
  if d.any (fun p => p.1 = k) then
    d.map (fun p => if p.1 = k then (k, v) else p)
  else d ++ [(k, v)]

/-- Python `d.get(k)`: the value at the first (unique) occurrence of `k`. -/
def dictGet (d : Dict) (k : String) : Option PyVal :=
  (d.find? (fun p => p.1 = k)).map (fun p => p.2)

/-- Python `d.update(u)`. -/
def dictUpdate (d : Dict) (u : Dict) : Dict :=
  u.foldl (fun acc kv => dictSet acc kv.1 kv.2) d

/-- The exceptions the embedded code can raise. -/
inductive Err
  | itemLimit
  | keyCollision (k : String)
  | unboundLocal
  | assertHintNone
  | exclusiveModes
  deriving DecidableEq, Repr

/-- Observable side effects of the orchestrator, in program order. -/
inductive Event
  | serializerCall (numObjs : Nat)
  | putData (k : Key) (b : ByteStr)
  | putFunc (k : Key) (b : ByteStr)
  | putMod (k : Key) (b : ByteStr)
  | invoke (args : Dict)
  deriving DecidableEq, Repr

/-- Whether an event is a data upload (`storage.put_data`). -/
def Event.isPutData : Event → Bool
  | .putData _ _ => true
  | _ => false

/-- Whether an event is the function-package upload (`storage.put_func`). -/
def Event.isPutFunc : Event → Bool
  | .putFunc _ _ => true
  | _ => false

/-- Whether an event is a backend invocation (`invoker.invoke`). -/
def Event.isInvoke : Event → Bool
  | .invoke _ => true
  | _ => false

/-- The `ResponseFuture` returned per call, restricted to the identity the
orchestrator itself establishes (call id and callset id); its later lifecycle
belongs to the future/storage collaborators. -/
structure RFuture where
  call_id : String
  callset_id : String
  deriving DecidableEq, Repr

/-- The executor's configuration and collaborator interfaces.  `α` is the type
of the Python objects handed to `map` (the function and its inputs).

Opaque collaborator parameters (outside `executor.py`): `serializer` models
`SerializeIndependent.__call__` (the `Bool` is `_ignore_module_dependencies`),
`create_mod_data` and `pickleFuncModule` model the module packaging, and
`maxAggDataSize` models `wrenconfig.MAX_AGG_DATA_SIZE` (the spec's "fixed
threshold").  `now` is the model wall clock used for `host_submit_time`. -/
structure Executor (α : Type) where
  map_item_limit : Option Nat
  storagePfx : String
  runtimeName : String
  job_max_runtime : Nat
  versionTag : String
  runtime_url : String
  storage_config : String
  maxAggDataSize : Nat
  now : Nat
  serializer : Bool → List α → List ByteStr × List String
  create_mod_data : List String → ByteStr
  pickleFuncModule : ByteStr → ByteStr → ByteStr

/-! ## `Executor.invoke_with_keys` (executor.py lines 81-155) -/

/-- The invocation argument dict as first built (executor.py lines 99-113):
the fields set unconditionally before the optional merges. -/
def initArgDict (E : Executor α) (func_key data_key output_key status_key cancel_key : Key)
    (callset_id call_id : String) (data_byte_range : Option (Int × Int))
    (use_cached_runtime : Bool) : Dict :=
  [("storage_config", .str E.storage_config),
   ("func_key", .keyV func_key),
   ("data_key", .keyV data_key),
   ("output_key", .keyV output_key),
   ("status_key", .keyV status_key),
   ("cancel_key", .keyV cancel_key),
   ("callset_id", .str callset_id),
   ("job_max_runtime", .natV E.job_max_runtime),
   ("data_byte_range", .byteRange data_byte_range),
   ("call_id", .str call_id),
   ("use_cached_runtime", .boolV use_cached_runtime),
   ("runtime", .str E.runtimeName),
   ("pywren_version", .str E.versionTag),
   ("runtime_url", .str E.runtime_url)]

/-- The `extra_meta` sanity loop (executor.py lines 119-124): each metadata
entry is added unless its key is already in the dict, in which case a
`ValueError` is raised. -/
def mergeMeta : Dict → List (String × PyVal) → Except Err Dict
  | d, [] => .ok d
  | d, (k, v) :: rest =>
    if dictMem d k then .error (.keyCollision k) else mergeMeta (dictSet d k v) rest

/-- The argument dict after the optional `extra_env` merge (executor.py lines
115-117). -/
def argDictWithEnv (E : Executor α) (func_key data_key output_key status_key cancel_key : Key)
    (callset_id call_id : String) (data_byte_range : Option (Int × Int))
    (use_cached_runtime : Bool) (extra_env : Option (List (String × String))) : Dict :=
  let d0 := initArgDict E func_key data_key output_key status_key cancel_key
      callset_id call_id data_byte_range use_cached_runtime
  match extra_env with
  | none => d0
  | some env => dictSet d0 "extra_env" (.strDict env)

/-- `Executor.invoke_with_keys`: build the argument dict, merge the optional
environment and metadata (the latter may raise), stamp the submission time,
apply the test-only override map, invoke the backend, and return the invoked
future.  On success the returned events are the single backend invocation
carrying the final dict. -/
def invoke_with_keys (E : Executor α) (func_key data_key output_key status_key cancel_key : Key)
    (callset_id call_id : String) (extra_env : Option (List (String × String)))
    (extra_meta : Option (List (String × PyVal))) (data_byte_range : Option (Int × Int))
    (use_cached_runtime : Bool) (overwrite_invoke_args : Option Dict) :
    Except Err (List Event × RFuture) :=
  let d1 := argDictWithEnv E func_key data_key output_key status_key cancel_key
      callset_id call_id data_byte_range use_cached_runtime extra_env
  match (match extra_meta with
         | none => (.ok d1 : Except Err Dict)
         | some m => mergeMeta d1 m) with
  | .error e => .error e
  | .ok d2 =>
    let d3 := dictSet d2 "host_submit_time" (.natV E.now)
    let d4 := match overwrite_invoke_args with
      | none => d3
      | some u => dictUpdate d3 u
    .ok ([Event.invoke d4], { call_id := call_id, callset_id := callset_id })

/-! ## `Executor.parse_module_dependencies` (executor.py lines 171-202) -/

/-- `Executor.parse_module_dependencies`: assert the hint is present, assert
the two shared-storage modes are not combined, return early when loading from
shared storage, otherwise serialize the function, build the pickled
function+modules package, and sync it to shared storage when requested.
The trace records the serializer call and the module-package upload. -/
def parse_module_dependencies (E : Executor α) (func : α) (hint : Option String)
    (from_shared_storage sync_to_shared_storage : Bool) :
    List Event × Except Err Unit :=
  if hint.isNone then ([], .error .assertHintNone)
  else if from_shared_storage && sync_to_shared_storage then ([], .error .exclusiveModes)
  else if from_shared_storage then ([], .ok ())
  else
    let serOut := E.serializer false [func]
    let func_str := serOut.1.headI
    let module_data := E.create_mod_data serOut.2
    let func_module_str := E.pickleFuncModule func_str module_data
    if sync_to_shared_storage then
      let storage_key := Key.modKey E.storagePfx (hint.getD "")
      ([Event.serializerCall 1, Event.putMod storage_key func_module_str], .ok ())
    else ([Event.serializerCall 1], .ok ())

/-! ## `Executor.map` (executor.py lines 204-361) -/

/-- Python's `module in mod_path` substring test. -/
def containsSub (module mod_path : String) : Bool :=
  decide (module.data <:+: mod_path.data)

/-- One iteration of the outer exclusion loop (executor.py lines 272-275):
iterate over a snapshot `list(mod_paths)` of the current path list, removing
every path containing `module` that is still present. -/
def excludeOne (mps : List String) (module : String) : List String :=
  mps.foldl
    (fun cur mod_path =>
      if containsSub module mod_path && decide (mod_path ∈ cur) then cur.erase mod_path
      else cur)
    mps

/-- The full exclusion loop over all modules of `exclude_modules`. -/
def excludeModules (mps : List String) (modules : List String) : List String :=
  modules.foldl excludeOne mps

/-- The `if exclude_modules:` block (executor.py lines 271-275) acting on the
variable `mod_paths`, which is only assigned on the
`module_dependencies_key is None` branch of the serialization step (line 246);
the cached-dependency branch assigns the differently named `mod_path` instead
(line 249), so reading `mod_paths` there raises `UnboundLocalError`.  The
unassigned state is `none`.  Python truthiness: `None` and `[]` skip the
block. -/
def excludeStep (mod_pathsVar : Option (List String)) (exclude_modules : Option (List String)) :
    Except Err (Option (List String)) :=
  match exclude_modules with
  | none => .ok mod_pathsVar
  | some [] => .ok mod_pathsVar
  | some (m :: ms) =>
    match mod_pathsVar with
    | none => .error .unboundLocal
    | some mps => .ok (some (excludeModules mps (m :: ms)))

/-- The intermediate state of `map` after packaging: the per-input payloads,
the aggregation decision, and the function-package key. -/
structure PreOut where
  data_strs : List ByteStr
  aggKey : Option Key
  aggRanges : List (Int × Int)
  func_key : Key
  deriving DecidableEq, Repr

/-- The sequential prefix of `map` between the early checks and the fan-out
(executor.py lines 241-301): serialization (with the `mod_paths` binding
depending on `module_dependencies_key`), the aggregation decision and upload,
the module-exclusion block, and the function-package construction and upload
or cached-key reuse.  Events accumulated before an exception are kept. -/
def mapPre (E : Executor α) (func : α) (data : List α) (data_all_as_one : Bool)
    (exclude_modules : Option (List String)) (module_dependencies_key : Option String)
    (callset_id : String) : List Event × Except Err PreOut :=
  let serRes : List ByteStr × Option (List String) :=
    match module_dependencies_key with
    | none =>
      let s := E.serializer false (func :: data)
      (s.1, some s.2)
    | some _ =>
      let s := E.serializer true (func :: data)
      (s.1, none)
  let func_str := serRes.1.headI
  let data_strs := serRes.1.tail
  let data_size_bytes := (data_strs.map List.length).sum
  let aggOpt : Option (Key × ByteStr × List (Int × Int)) :=
    if data_size_bytes < E.maxAggDataSize ∧ data_all_as_one then
      let k := Key.aggDataKey E.storagePfx callset_id
      let a := agg_data data_strs
      some (k, a.1, a.2)
    else none
  let evs0 := [Event.serializerCall (func :: data).length]
  let evs1 := match aggOpt with
    | some (k, blob, _) => evs0 ++ [Event.putData k blob]
    | none => evs0
  match excludeStep serRes.2 exclude_modules with
  | .error e => (evs1, .error e)
  | .ok mod_pathsAfter =>
    match module_dependencies_key with
    | none =>
      let module_data := E.create_mod_data (mod_pathsAfter.getD [])
      let func_module_str := E.pickleFuncModule func_str module_data
      let fk := Key.funcKey E.storagePfx callset_id
      (evs1 ++ [Event.putFunc fk func_module_str],
       .ok { data_strs := data_strs,
             aggKey := aggOpt.map (fun t => t.1),
             aggRanges := (aggOpt.map (fun t => t.2.2)).getD [],
             func_key := fk })
    | some mdk =>
      (evs1,
       .ok { data_strs := data_strs,
             aggKey := aggOpt.map (fun t => t.1),
             aggRanges := (aggOpt.map (fun t => t.2.2)).getD [],
             func_key := Key.modKey E.storagePfx mdk })

/-- The body of one worker-pool task: the inner `invoke` closure applied to
input `i` (executor.py lines 302-346).  Derives the call's four keys, uploads
the call's own payload when there is no aggregated blob, and calls
`invoke_with_keys` with either the call's own data key or the aggregated key
plus this call's byte range.  Returns the task's events (kept even when the
invocation raises) and its result. -/
def mapTask (E : Executor α) (callset_id : String) (func_key : Key)
    (extra_env : Option (List (String × String))) (extra_meta : Option (List (String × PyVal)))
    (use_cached_runtime : Bool) (overwrite_invoke_args : Option Dict)
    (aggKey : Option Key) (aggRs : List (Int × Int)) (data_strs : List ByteStr)
    (i : Nat) : List Event × Except Err RFuture :=
  let call_id := format05 i
  let data_byte_range : Option (Int × Int) :=
    match aggKey with
    | some _ => aggRs.get? i
    | none => none
  let data_key := Key.dataKey E.storagePfx callset_id call_id
  let output_key := Key.outputKey E.storagePfx callset_id call_id
  let status_key := Key.statusKey E.storagePfx callset_id call_id
  let cancel_key := Key.cancelKey E.storagePfx callset_id call_id
  match aggKey with
  | none =>
    let up := [Event.putData data_key (data_strs.getD i [])]
    match invoke_with_keys E func_key data_key output_key status_key cancel_key
        callset_id call_id extra_env extra_meta data_byte_range use_cached_runtime
        overwrite_invoke_args with
    | .error e => (up, .error e)
    | .ok (evs, fut) => (up ++ evs, .ok fut)
  | some ak =>
    match invoke_with_keys E func_key ak output_key status_key cancel_key
        callset_id call_id extra_env extra_meta data_byte_range use_cached_runtime
        overwrite_invoke_args with
    | .error e => ([], .error e)
    | .ok (evs, fut) => (evs, .ok fut)

/-- `Executor.map`.  `callset_id` stands for the fresh id from
`wrenutil.create_callset_id` (outside this source).  `sched` is the order in
which the worker pool happens to run the `N` submitted tasks (any permutation
of `0..N-1`); it determines only the interleaving of task side effects in the
trace.  Results are collected by submission index — `[c.get() for c in
call_result_objs]` — so the result list (or the first collected task
exception) is independent of `sched`. -/
def Executor.map (E : Executor α) (func : α) (iterdata : List α)
    (extra_env : Option (List (String × String)))
    (extra_meta : Option (List (String × PyVal)))
    (data_all_as_one use_cached_runtime : Bool)
    (overwrite_invoke_args : Option Dict)
    (exclude_modules : Option (List String))
    (module_dependencies_key : Option String)
    (callset_id : String) (sched : List Nat) :
    List Event × Except Err (List RFuture) :=
  let data := iterdata
  if data.isEmpty then ([], .ok []) else
  if (match E.map_item_limit with
      | some lim => decide (data.length > lim)
      | none => false) then ([], .error .itemLimit)
  else
    match mapPre E func data data_all_as_one exclude_modules module_dependencies_key callset_id with
    | (evs, .error e) => (evs, .error e)
    | (evs, .ok pre) =>
      let task := fun i => mapTask E callset_id pre.func_key extra_env extra_meta
          use_cached_runtime overwrite_invoke_args pre.aggKey pre.aggRanges pre.data_strs i
      (evs ++ sched.flatMap (fun i => (task i).1),
       ((List.range data.length).map (fun i => (task i).2)).mapM (fun r => r))

instance : Inhabited RFuture := ⟨{ call_id := "", callset_id := "" }⟩

/-- `Executor.call_async` (executor.py lines 157-159): a one-element `map`,
returning the single future. -/
def call_async (E : Executor α) (func : α) (data : α)
    (extra_env : Option (List (String × String)))
    (extra_meta : Option (List (String × PyVal)))
    (callset_id : String) (sched : List Nat) :
    List Event × Except Err RFuture :=
  match E.map func [data] extra_env extra_meta true true none none none callset_id sched with
  | (evs, .error e) => (evs, .error e)
  | (evs, .ok futs) => (evs, .ok (futs.headI))

/-! ## `Executor.reduce` (executor.py lines 363-381) -/

/-- The state a dependent `ResultHandle` is observed in by the wait step. -/
inductive HandleState
  | success (v : Nat)
  | failed (e : Err)
  | running
  deriving DecidableEq, Repr

/-- Outcome of the wait step over the dependent handles. -/
inductive WaitOutcome
  | completed
  | failedWith (e : Err)
  | blocked
  deriving DecidableEq, Repr

/-- Modelled from the spec: the Wait Utility (`pywren/wait.py`) is not part of
this component's source.  §4.5/§7: with `ALL_COMPLETED` it blocks until every
supplied handle reaches a terminal state, and any underlying handle failure
propagates to the caller.  A never-terminal handle means the wait blocks
forever (`blocked`). -/
def waitAllCompleted (hs : List HandleState) : WaitOutcome :=
  match hs.find? (fun h => match h with | .failed _ => true | _ => false) with
  | some (.failed e) => .failedWith e
  | _ =>
    if hs.all (fun h => match h with | .success _ => true | _ => false) then .completed
    else .blocked

/-- Outcome of `reduce`: a propagated dependent failure (before anything is
built or dispatched), an indefinite block, or a dispatched reduction call. -/
inductive ReduceOutcome
  | propagated (e : Err)
  | blocksForever
  | dispatched (tr : List Event) (r : Except Err RFuture)
  deriving Repr

/-- `Executor.reduce`: wait on all dependent handles (`ALL_COMPLETED`), then
build the `reduce_func` closure over the future list and dispatch it as a
single new call via `call_async`.  `rfunc` stands for the built closure and
`futsVal` for the future list as the one data item, both opaque to the
orchestrator; `states` are the dependent handles' states as the wait step
observes them. -/
def reduce (E : Executor α) (rfunc : α) (futsVal : α) (states : List HandleState)
    (extra_env : Option (List (String × String)))
    (extra_meta : Option (List (String × PyVal)))
    (callset_id : String) (sched : List Nat) : ReduceOutcome :=
  match waitAllCompleted states with
  | .failedWith e => .propagated e
  | .blocked => .blocksForever
  | .completed =>
    match call_async E rfunc futsVal extra_env extra_meta callset_id sched with
    | (evs, r) => .dispatched evs r

/-! ## Lemmas: decimal formatting -/

/-- Value of a least-significant-first digit list. -/
def fromDigitsRev : List Nat → Nat
  | [] => 0
  | d :: ds => d + 10 * fromDigitsRev ds

theorem fromDigitsRev_digitsRevAux (fuel : Nat) :
    ∀ n : Nat, n ≤ fuel → fromDigitsRev (digitsRevAux fuel n) = n := by
  induction fuel with
  | zero =>
    intro n hn
    interval_cases n
    simp [digitsRevAux, fromDigitsRev]
  | succ fuel ih =>
    intro n hn
    by_cases h0 : n = 0
    · simp [digitsRevAux, h0, fromDigitsRev]
    · have hdiv : n / 10 ≤ fuel := by
        have : n / 10 < n := Nat.div_lt_self (Nat.pos_of_ne_zero h0) (by norm_num)
        omega
      simp only [digitsRevAux, h0, if_false, fromDigitsRev]
      rw [ih _ hdiv]
      exact Nat.mod_add_div n 10

theorem fromDigitsRev_digitsRev (n : Nat) : fromDigitsRev (digitsRev n) = n :=
  fromDigitsRev_digitsRevAux n n (Nat.le_refl n)

theorem digitsRevAux_lt_ten (fuel : Nat) :
    ∀ n : Nat, ∀ d ∈ digitsRevAux fuel n, d < 10 := by
  induction fuel with
  | zero => intro n d hd; simp [digitsRevAux] at hd
  | succ fuel ih =>
    intro n d hd
    by_cases h0 : n = 0
    · simp [digitsRevAux, h0] at hd
    · simp only [digitsRevAux, h0, if_false, List.mem_cons] at hd
      rcases hd with h | h
      · subst h; exact Nat.mod_lt _ (by norm_num)
      · exact ih _ _ h

theorem digitsRevAux_length_le (fuel : Nat) :
    ∀ n k : Nat, n < 10 ^ k → (digitsRevAux fuel n).length ≤ k := by
  induction fuel with
  | zero => intro n k _; simp [digitsRevAux]
  | succ fuel ih =>
    intro n k hk
    by_cases h0 : n = 0
    · simp [digitsRevAux, h0]
    · cases k with
      | zero => simp at hk; omega
      | succ k =>
        simp only [digitsRevAux, h0, if_false, List.length_cons]
        have hdiv : n / 10 < 10 ^ k := by
          rw [Nat.div_lt_iff_lt_mul (by norm_num)]
          calc n < 10 ^ (k + 1) := hk
            _ = 10 ^ k * 10 := by ring
        exact Nat.succ_le_succ (ih _ _ hdiv)

theorem digitChar_toNat (d : Nat) (hd : d < 10) : (digitChar d).toNat = 48 + d := by
  interval_cases d <;> rfl

/-- Folding the id-value step over digit characters is folding the plain
digit step over the digits. -/
theorem foldl_digitChar (ds : List Nat) (hd : ∀ d ∈ ds, d < 10) :
    ∀ a : Nat, (ds.map digitChar).foldl (fun a c => 10 * a + (c.toNat - 48)) a =
      ds.foldl (fun a d => 10 * a + d) a := by
  induction ds with
  | nil => intro a; rfl
  | cons d ds ih =>
    intro a
    have hd0 : d < 10 := hd d (List.mem_cons_self d ds)
    simp only [List.map_cons, List.foldl_cons,
      digitChar_toNat d hd0, Nat.add_sub_cancel_left]
    exact ih (fun d h => hd d (List.mem_cons_of_mem _ h)) _

theorem foldl_zeros (k : Nat) :
    (List.replicate k '0').foldl (fun a c => 10 * a + (c.toNat - 48)) 0 = 0 := by
  induction k with
  | zero => rfl
  | succ k ih => simpa [List.replicate_succ] using ih

theorem foldl_reverse_digits (ds : List Nat) :
    ∀ a : Nat, ds.reverse.foldl (fun a d => 10 * a + d) a =
      a * 10 ^ ds.length + fromDigitsRev ds := by
  induction ds with
  | nil => intro a; simp [fromDigitsRev]
  | cons d ds ih =>
    intro a
    simp only [List.reverse_cons, List.foldl_append, List.foldl_cons, List.foldl_nil,
      ih a, fromDigitsRev, List.length_cons]
    ring

/-- The numeric value of a formatted call id is the call index: call ids are
order-preserving sequence numbers. -/
theorem valueOfId_format05 (n : Nat) : valueOfId (format05 n) = n := by
  have hlt := digitsRevAux_lt_ten n n
  simp only [valueOfId, format05, List.foldl_append]
  rw [foldl_zeros]
  rw [foldl_digitChar _ (by intro d hd; exact hlt d (by simpa using hd))]
  have := foldl_reverse_digits (digitsRev n) 0
  simp only [Nat.zero_mul, Nat.zero_add] at this
  rw [this, fromDigitsRev_digitsRev]

/-- Call ids are fixed-width (five characters) for indices below `100000`. -/
theorem format05_length (n : Nat) (hn : n < 100000) : (format05 n).data.length = 5 := by
  have hlen : (digitsRev n).length ≤ 5 :=
    digitsRevAux_length_le n n 5 (by norm_num at hn ⊢; exact hn)
  simp only [format05, List.length_append, List.length_replicate, List.length_map,
    List.length_reverse]
  omega

/-! ## Lemmas: `agg_data` -/

theorem aggRanges_length : ∀ (ds : List ByteStr) (pos : Int),
    (aggRanges pos ds).length = ds.length := by
  intro ds
  induction ds with
  | nil => intro pos; rfl
  | cons d ds ih => intro pos; simp [aggRanges, ih]

theorem aggRanges_start_le : ∀ (ds : List ByteStr) (pos : Int) (i : Nat) (r : Int × Int),
    (aggRanges pos ds).get? i = some r → pos ≤ r.1 := by
  intro ds
  induction ds with
  | nil => intro pos i r h; simp [aggRanges] at h
  | cons d ds ih =>
    intro pos i r h
    cases i with
    | zero =>
      simp only [aggRanges, List.get?_cons_zero, Option.some.injEq] at h
      subst h; exact le_refl _
    | succ i =>
      simp only [aggRanges, List.get?_cons_succ] at h
      have := ih _ _ _ h
      have hlen : (0 : Int) ≤ (d.length : Int) := Int.natCast_nonneg _
      omega

theorem aggRanges_first_start : ∀ (ds : List ByteStr) (pos : Int) (r : Int × Int),
    (aggRanges pos ds).get? 0 = some r → r.1 = pos := by
  intro ds pos r h
  cases ds with
  | nil => simp [aggRanges] at h
  | cons d ds =>
    simp only [aggRanges, List.get?_cons_zero, Option.some.injEq] at h
    subst h; rfl

theorem aggRanges_contiguous : ∀ (ds : List ByteStr) (pos : Int) (i : Nat) (r r' : Int × Int),
    (aggRanges pos ds).get? i = some r → (aggRanges pos ds).get? (i + 1) = some r' →
    r'.1 = r.2 + 1 := by
  intro ds
  induction ds with
  | nil => intro pos i r r' h _; simp [aggRanges] at h
  | cons d ds ih =>
    intro pos i r r' h h'
    cases i with
    | zero =>
      simp only [aggRanges, List.get?_cons_zero, Option.some.injEq] at h
      simp only [aggRanges, List.get?_cons_succ] at h'
      subst h
      have := aggRanges_first_start ds (pos + (d.length : Int)) r' h'
      simp only [this]
      ring
    | succ i =>
      simp only [aggRanges, List.get?_cons_succ] at h h'
      exact ih _ _ _ _ h h'

theorem aggRanges_disjoint : ∀ (ds : List ByteStr) (pos : Int) (i j : Nat) (r r' : Int × Int),
    i < j → (aggRanges pos ds).get? i = some r → (aggRanges pos ds).get? j = some r' →
    r.2 < r'.1 := by
  intro ds
  induction ds with
  | nil => intro pos i j r r' _ h _; simp [aggRanges] at h
  | cons d ds ih =>
    intro pos i j r r' hij h h'
    cases i with
    | zero =>
      simp only [aggRanges, List.get?_cons_zero, Option.some.injEq] at h
      subst h
      obtain ⟨j', rfl⟩ : ∃ j', j = j' + 1 := ⟨j - 1, by omega⟩
      simp only [aggRanges, List.get?_cons_succ] at h'
      have := aggRanges_start_le ds _ _ _ h'
      simp only
      omega
    | succ i =>
      obtain ⟨j', rfl⟩ : ∃ j', j = j' + 1 := ⟨j - 1, by omega⟩
      simp only [aggRanges, List.get?_cons_succ] at h h'
      exact ih _ _ _ _ _ (by omega) h h'

/-- Core round-trip lemma, generalized over an arbitrary already-aggregated
byte string `pre` sitting in front of the remaining payloads. -/
theorem aggRanges_slice : ∀ (ds : List ByteStr) (pre : ByteStr) (i : Nat) (r : Int × Int)
    (d : ByteStr), (aggRanges (pre.length : Int) ds).get? i = some r →
    ds.get? i = some d → pySliceNN (pre ++ ds.flatten) r.1 (r.2 + 1) = d := by
  intro ds
  induction ds with
  | nil => intro pre i r d h _; simp [aggRanges] at h
  | cons d0 ds ih =>
    intro pre i r d h hd
    cases i with
    | zero =>
      simp only [aggRanges, List.get?_cons_zero, Option.some.injEq] at h hd
      subst h; subst hd
      simp only [pySliceNN]
      have hb : ((pre.length : Int) + (d0.length : Int) - 1 + 1).toNat = pre.length + d0.length := by
        omega
      have ha : ((pre.length : Int)).toNat = pre.length := by omega
      rw [hb, ha, List.flatten_cons, ← List.append_assoc]
      rw [show pre.length + d0.length = (pre ++ d0).length by simp]
      rw [List.take_left, List.drop_left' (by simp)]
    | succ i =>
      simp only [aggRanges, List.get?_cons_succ] at h hd
      have hcast : (pre.length : Int) + (d0.length : Int) = (((pre ++ d0).length : Nat) : Int) := by
        simp
      rw [hcast] at h
      have := ih (pre ++ d0) i r d h hd
      rw [List.flatten_cons, ← List.append_assoc]
      exact this

/-! ## Lemmas: dict semantics -/

theorem dictMem_cons (q : String × PyVal) (d : Dict) (k : String) :
    dictMem (q :: d) k = (decide (q.1 = k) || dictMem d k) := by
  simp [dictMem, List.any_cons]

theorem dictMem_eq_mem_keys (d : Dict) (k : String) :
    dictMem d k = true ↔ k ∈ d.map Prod.fst := by
  induction d with
  | nil => simp [dictMem]
  | cons q d ih =>
    rw [dictMem_cons]
    simp only [Bool.or_eq_true, decide_eq_true_eq, List.map_cons, List.mem_cons, ih]
    constructor
    · rintro (h | h)
      · exact Or.inl h.symm
      · exact Or.inr h
    · rintro (h | h)
      · exact Or.inl h.symm
      · exact Or.inr h

theorem dictGet_cons (q : String × PyVal) (d : Dict) (k : String) :
    dictGet (q :: d) k = if q.1 = k then some q.2 else dictGet d k := by
  by_cases h : q.1 = k
  · rw [if_pos h]
    simp only [dictGet]
    rw [List.find?_cons_of_pos _ (by simpa using h)]
    rfl
  · rw [if_neg h]
    simp only [dictGet]
    rw [List.find?_cons_of_neg _ (by simpa using h)]

/-- Overwriting all occurrences of `k` leaves lookups of other keys alone. -/
theorem dictGet_overwriteMap (d : Dict) (k k' : String) (v : PyVal) (h : k' ≠ k) :
    dictGet (d.map (fun p => if p.1 = k then (k, v) else p)) k' = dictGet d k' := by
  induction d with
  | nil => rfl
  | cons q d ih =>
    by_cases hq : q.1 = k
    · simp only [List.map_cons, if_pos hq]
      rw [dictGet_cons, dictGet_cons, if_neg (by simpa using fun hc : k = k' => h hc.symm),
        if_neg (by rw [hq]; exact fun hc => h hc.symm)]
      exact ih
    · simp only [List.map_cons, if_neg hq]
      rw [dictGet_cons, dictGet_cons]
      by_cases hq' : q.1 = k'
      · rw [if_pos hq', if_pos hq']
      · rw [if_neg hq', if_neg hq']
        exact ih

theorem dictMem_dictSet_self (d : Dict) (k : String) (v : PyVal) :
    dictMem (dictSet d k v) k = true := by
  simp only [dictSet]
  split
  · rename_i hmem
    induction d with
    | nil => simp at hmem
    | cons q d ih =>
      by_cases hq : q.1 = k
      · simp [List.map_cons, if_pos hq, dictMem_cons]
      · simp only [List.map_cons, if_neg hq]
        rw [dictMem_cons]
        have : dictMem (List.map (fun p => if p.1 = k then (k, v) else p) d) k = true :=
          ih (by simpa [List.any_cons, hq] using hmem)
        simp [this]
  · induction d with
    | nil => simp [dictMem_cons]
    | cons q d ih =>
      rename_i hmem
      simp only [List.cons_append]
      rw [dictMem_cons]
      have : dictMem (d ++ [(k, v)]) k = true :=
        ih (by intro hc; exact hmem (by simp [List.any_cons]; right; simpa [dictMem] using hc))
      simp [this]

/-- Membership for keys other than the overwritten one. -/
theorem dictMem_overwriteMap (d : Dict) (k k' : String) (v : PyVal) (h : k' ≠ k) :
    dictMem (d.map (fun p => if p.1 = k then (k, v) else p)) k' = dictMem d k' := by
  induction d with
  | nil => rfl
  | cons q d ih =>
    by_cases hq : q.1 = k
    · simp only [List.map_cons, if_pos hq]
      rw [dictMem_cons, dictMem_cons, ih]
      have h1 : decide (k = k') = false := by simp; exact fun hc => h hc.symm
      have h2 : decide (q.1 = k') = false := by simp [hq]; exact fun hc => h hc.symm
      rw [h1, h2]
    · simp only [List.map_cons, if_neg hq]
      rw [dictMem_cons, dictMem_cons, ih]

theorem dictMem_appendSingle (d : Dict) (k k' : String) (v : PyVal) (h : k' ≠ k) :
    dictMem (d ++ [(k, v)]) k' = dictMem d k' := by
  induction d with
  | nil =>
    simp only [List.nil_append]
    rw [dictMem_cons]
    simp [dictMem]
    exact fun hc => h hc.symm
  | cons q d ih =>
    simp only [List.cons_append]
    rw [dictMem_cons, dictMem_cons, ih]

theorem dictGet_appendSingle (d : Dict) (k k' : String) (v : PyVal) (h : k' ≠ k) :
    dictGet (d ++ [(k, v)]) k' = dictGet d k' := by
  induction d with
  | nil =>
    simp only [List.nil_append]
    rw [dictGet_cons, if_neg (by exact fun hc => h hc.symm)]
  | cons q d ih =>
    simp only [List.cons_append]
    rw [dictGet_cons, dictGet_cons, ih]

theorem dictMem_dictSet_other (d : Dict) (k k' : String) (v : PyVal) (h : k' ≠ k) :
    dictMem (dictSet d k v) k' = dictMem d k' := by
  simp only [dictSet]
  split
  · exact dictMem_overwriteMap d k k' v h
  · exact dictMem_appendSingle d k k' v h

theorem dictGet_dictSet_self (d : Dict) (k : String) (v : PyVal) :
    dictGet (dictSet d k v) k = some v := by
  simp only [dictSet]
  split
  · rename_i hmem
    induction d with
    | nil => simp at hmem
    | cons q d ih =>
      by_cases hq : q.1 = k
      · simp only [List.map_cons, if_pos hq]
        rw [dictGet_cons, if_pos rfl]
      · simp only [List.map_cons, if_neg hq]
        rw [dictGet_cons, if_neg hq]
        exact ih (by simpa [List.any_cons, hq] using hmem)
  · induction d with
    | nil => simp [dictGet_cons]
    | cons q d ih =>
      rename_i hmem
      have hq : ¬ (q.1 = k) := by
        intro hqk
        exact hmem (by simp [List.any_cons, hqk])
      simp only [List.cons_append]
      rw [dictGet_cons, if_neg hq]
      exact ih (by intro hc; exact hmem (by simp [List.any_cons]; right; simpa using hc))

theorem dictGet_dictSet_other (d : Dict) (k k' : String) (v : PyVal) (h : k' ≠ k) :
    dictGet (dictSet d k v) k' = dictGet d k' := by
  simp only [dictSet]
  split
  · exact dictGet_overwriteMap d k k' v h
  · exact dictGet_appendSingle d k k' v h

/-! ## Lemmas: `invoke_with_keys` -/

/-- The field names of the initially-built argument dict (executor.py lines
99-113), in construction order. -/
def initFieldNames : List String :=
  ["storage_config", "func_key", "data_key", "output_key", "status_key", "cancel_key",
   "callset_id", "job_max_runtime", "data_byte_range", "call_id", "use_cached_runtime",
   "runtime", "pywren_version", "runtime_url"]

/-- The required field names of the `InvocationArguments` record: the fields
`invoke_with_keys` always places in the record handed to the backend — the
initial fields plus the submission timestamp `host_submit_time` (executor.py
line 127). -/
def requiredFieldNames : List String := initFieldNames ++ ["host_submit_time"]

theorem initArgDict_keys (E : Executor α) (fk dk outk sk ck : Key) (cs cid : String)
    (dbr : Option (Int × Int)) (ucr : Bool) :
    (initArgDict E fk dk outk sk ck cs cid dbr ucr).map Prod.fst = initFieldNames := rfl

/-- A successful metadata merge does not change keys already in the dict. -/
theorem mergeMeta_preserves : ∀ (m : List (String × PyVal)) (d d2 : Dict),
    mergeMeta d m = .ok d2 → ∀ k, dictMem d k = true →
    dictGet d2 k = dictGet d k ∧ dictMem d2 k = true := by
  intro m
  induction m with
  | nil =>
    intro d d2 h k hk
    simp only [mergeMeta, Except.ok.injEq] at h
    subst h
    exact ⟨rfl, hk⟩
  | cons p rest ih =>
    intro d d2 h k hk
    obtain ⟨k0, v0⟩ := p
    simp only [mergeMeta] at h
    split at h
    · exact absurd h (by simp)
    · rename_i hmem
      have hne : k ≠ k0 := by
        intro hc
        rw [hc] at hk
        simp [hk] at hmem
      have hk' : dictMem (dictSet d k0 v0) k = true := by
        rw [dictMem_dictSet_other d k0 k v0 hne]
        exact hk
      obtain ⟨hg, hm⟩ := ih (dictSet d k0 v0) d2 h k hk'
      refine ⟨?_, hm⟩
      rw [hg, dictGet_dictSet_other d k0 k v0 hne]

/-- A metadata key already present in the dict makes the merge raise. -/
theorem mergeMeta_error_of_collision : ∀ (m : List (String × PyVal)) (d : Dict),
    (∃ p ∈ m, dictMem d p.1 = true) → ∃ k, mergeMeta d m = .error (.keyCollision k) := by
  intro m
  induction m with
  | nil => intro d h; simp at h
  | cons p rest ih =>
    intro d h
    obtain ⟨k0, v0⟩ := p
    by_cases hmem : dictMem d k0 = true
    · exact ⟨k0, by simp [mergeMeta, hmem]⟩
    · obtain ⟨q, hq, hqmem⟩ := h
      rcases List.mem_cons.mp hq with rfl | hq'
      · exact absurd hqmem hmem
      · have : ∃ p ∈ rest, dictMem (dictSet d k0 v0) p.1 = true := by
          refine ⟨q, hq', ?_⟩
          by_cases hqk : q.1 = k0
          · rw [hqk]; exact dictMem_dictSet_self d k0 v0
          · rw [dictMem_dictSet_other d k0 q.1 v0 hqk]; exact hqmem
        obtain ⟨k, hk⟩ := ih (dictSet d k0 v0) this
        exact ⟨k, by simp [mergeMeta, hmem, hk]⟩

/-- Fresh, pairwise-distinct metadata keys merge successfully and every entry
is added. -/
theorem mergeMeta_ok_of_fresh : ∀ (m : List (String × PyVal)) (d : Dict),
    (∀ p ∈ m, dictMem d p.1 = false) → (m.map Prod.fst).Nodup →
    ∃ d2, mergeMeta d m = .ok d2 ∧ ∀ p ∈ m, dictGet d2 p.1 = some p.2 := by
  intro m
  induction m with
  | nil => intro d _ _; exact ⟨d, rfl, by simp⟩
  | cons p rest ih =>
    intro d hfresh hnodup
    obtain ⟨k0, v0⟩ := p
    have hmem : dictMem d k0 = false := hfresh (k0, v0) (List.mem_cons_self _ _)
    have hn : k0 ∉ rest.map Prod.fst ∧ (rest.map Prod.fst).Nodup := by
      rw [List.map_cons] at hnodup
      exact List.nodup_cons.mp hnodup
    have hnodup' : (rest.map Prod.fst).Nodup := hn.2
    have hk0rest : ∀ p ∈ rest, p.1 ≠ k0 := by
      intro q hq hc
      exact hn.1 (by rw [← hc]; exact List.mem_map_of_mem Prod.fst hq)
    have hfresh' : ∀ p ∈ rest, dictMem (dictSet d k0 v0) p.1 = false := by
      intro q hq
      rw [dictMem_dictSet_other d k0 q.1 v0 (hk0rest q hq)]
      exact hfresh q (List.mem_cons_of_mem _ hq)
    obtain ⟨d2, hd2, hget⟩ := ih (dictSet d k0 v0) hfresh' hnodup'
    refine ⟨d2, by simp [mergeMeta, hmem, hd2], ?_⟩
    intro q hq
    rcases List.mem_cons.mp hq with rfl | hq'
    · have hpres := mergeMeta_preserves rest (dictSet d k0 v0) d2 hd2 k0
        (dictMem_dictSet_self d k0 v0)
      rw [hpres.1, dictGet_dictSet_self]
    · exact hget q hq'

theorem initArgDict_get_data_key (E : Executor α) (fk dk outk sk ck : Key) (cs cid : String)
    (dbr : Option (Int × Int)) (ucr : Bool) :
    dictGet (initArgDict E fk dk outk sk ck cs cid dbr ucr) "data_key" = some (.keyV dk) := by
  simp [initArgDict, dictGet_cons]

theorem initArgDict_get_byte_range (E : Executor α) (fk dk outk sk ck : Key) (cs cid : String)
    (dbr : Option (Int × Int)) (ucr : Bool) :
    dictGet (initArgDict E fk dk outk sk ck cs cid dbr ucr) "data_byte_range" =
      some (.byteRange dbr) := by
  simp [initArgDict, dictGet_cons]

theorem initArgDict_get_call_id (E : Executor α) (fk dk outk sk ck : Key) (cs cid : String)
    (dbr : Option (Int × Int)) (ucr : Bool) :
    dictGet (initArgDict E fk dk outk sk ck cs cid dbr ucr) "call_id" = some (.str cid) := by
  simp [initArgDict, dictGet_cons]

theorem initArgDict_mem (E : Executor α) (fk dk outk sk ck : Key) (cs cid : String)
    (dbr : Option (Int × Int)) (ucr : Bool) (k : String) :
    dictMem (initArgDict E fk dk outk sk ck cs cid dbr ucr) k = true ↔ k ∈ initFieldNames := by
  rw [dictMem_eq_mem_keys, initArgDict_keys]

theorem argDictWithEnv_get (E : Executor α) (fk dk outk sk ck : Key) (cs cid : String)
    (dbr : Option (Int × Int)) (ucr : Bool) (ee : Option (List (String × String)))
    (k : String) (hk : k ≠ "extra_env") :
    dictGet (argDictWithEnv E fk dk outk sk ck cs cid dbr ucr ee) k =
      dictGet (initArgDict E fk dk outk sk ck cs cid dbr ucr) k := by
  cases ee with
  | none => rfl
  | some env => exact dictGet_dictSet_other _ _ _ _ hk

theorem argDictWithEnv_mem (E : Executor α) (fk dk outk sk ck : Key) (cs cid : String)
    (dbr : Option (Int × Int)) (ucr : Bool) (ee : Option (List (String × String)))
    (k : String) :
    dictMem (argDictWithEnv E fk dk outk sk ck cs cid dbr ucr ee) k = true ↔
      k ∈ initFieldNames ∨ (k = "extra_env" ∧ ee.isSome = true) := by
  cases ee with
  | none =>
    rw [show argDictWithEnv E fk dk outk sk ck cs cid dbr ucr none =
        initArgDict E fk dk outk sk ck cs cid dbr ucr from rfl]
    rw [initArgDict_mem]
    simp
  | some env =>
    by_cases hk : k = "extra_env"
    · subst hk
      constructor
      · intro _; exact Or.inr ⟨rfl, rfl⟩
      · intro _
        exact dictMem_dictSet_self _ _ _
    · rw [show argDictWithEnv E fk dk outk sk ck cs cid dbr ucr (some env) =
          dictSet (initArgDict E fk dk outk sk ck cs cid dbr ucr) "extra_env"
            (.strDict env) from rfl]
      rw [dictMem_dictSet_other _ _ _ _ hk, initArgDict_mem]
      simp [hk]

/-- On success with no override map, the backend receives a dict whose
`data_key`, `data_byte_range` and `call_id` fields are exactly the ones
`invoke_with_keys` was given. -/
theorem invoke_with_keys_ok_args (E : Executor α) (fk dk outk sk ck : Key)
    (cs cid : String) (ee : Option (List (String × String)))
    (em : Option (List (String × PyVal))) (dbr : Option (Int × Int)) (ucr : Bool)
    (evs : List Event) (fut : RFuture)
    (h : invoke_with_keys E fk dk outk sk ck cs cid ee em dbr ucr none = .ok (evs, fut)) :
    ∃ d, evs = [Event.invoke d] ∧
      dictGet d "data_key" = some (.keyV dk) ∧
      dictGet d "data_byte_range" = some (.byteRange dbr) ∧
      dictGet d "call_id" = some (.str cid) := by
  have hget : ∀ k : String, k ≠ "extra_env" → k ∈ initFieldNames →
      ∀ d2, (match em with
             | none => (.ok (argDictWithEnv E fk dk outk sk ck cs cid dbr ucr ee) : Except Err Dict)
             | some m => mergeMeta (argDictWithEnv E fk dk outk sk ck cs cid dbr ucr ee) m) = .ok d2 →
      dictGet d2 k = dictGet (initArgDict E fk dk outk sk ck cs cid dbr ucr) k := by
    intro k hke hki d2 hm
    cases em with
    | none =>
      simp only [Except.ok.injEq] at hm
      subst hm
      exact argDictWithEnv_get E fk dk outk sk ck cs cid dbr ucr ee k hke
    | some m =>
      have hmem : dictMem (argDictWithEnv E fk dk outk sk ck cs cid dbr ucr ee) k = true :=
        (argDictWithEnv_mem E fk dk outk sk ck cs cid dbr ucr ee k).mpr (Or.inl hki)
      have := mergeMeta_preserves m _ d2 hm k hmem
      rw [this.1, argDictWithEnv_get E fk dk outk sk ck cs cid dbr ucr ee k hke]
  simp only [invoke_with_keys] at h
  split at h
  · exact absurd h (by simp)
  · rename_i d2 hm
    simp only [Except.ok.injEq, Prod.mk.injEq] at h
    obtain ⟨hevs, _⟩ := h
    refine ⟨dictSet d2 "host_submit_time" (.natV E.now), hevs.symm, ?_, ?_, ?_⟩
    · rw [dictGet_dictSet_other _ _ _ _ (by decide),
        hget "data_key" (by decide) (by decide) d2 hm, initArgDict_get_data_key]
    · rw [dictGet_dictSet_other _ _ _ _ (by decide),
        hget "data_byte_range" (by decide) (by decide) d2 hm, initArgDict_get_byte_range]
    · rw [dictGet_dictSet_other _ _ _ _ (by decide),
        hget "call_id" (by decide) (by decide) d2 hm, initArgDict_get_call_id]

/-- Duplicate metadata keys also make the merge raise: once the earlier entry
has been added to the dict, the later entry's key is found in it. -/
theorem mergeMeta_error_of_dup : ∀ (m : List (String × PyVal)) (d : Dict),
    ¬ (m.map Prod.fst).Nodup → ∃ k, mergeMeta d m = .error (.keyCollision k) := by
  intro m
  induction m with
  | nil => intro d h; simp at h
  | cons p rest ih =>
    intro d h
    obtain ⟨k0, v0⟩ := p
    by_cases hmem : dictMem d k0 = true
    · exact ⟨k0, by simp [mergeMeta, hmem]⟩
    · rw [List.map_cons, List.nodup_cons] at h
      by_cases hdup : k0 ∈ rest.map Prod.fst
      · obtain ⟨q, hq, hqk⟩ := List.mem_map.mp hdup
        have hcol : ∃ p ∈ rest, dictMem (dictSet d k0 v0) p.1 = true := by
          refine ⟨q, hq, ?_⟩
          rw [hqk]
          exact dictMem_dictSet_self d k0 v0
        obtain ⟨k, hk⟩ := mergeMeta_error_of_collision rest (dictSet d k0 v0) hcol
        exact ⟨k, by simp [mergeMeta, hmem, hk]⟩
      · have hrest : ¬ (rest.map Prod.fst).Nodup := fun hc => h ⟨hdup, hc⟩
        obtain ⟨k, hk⟩ := ih (dictSet d k0 v0) hrest
        exact ⟨k, by simp [mergeMeta, hmem, hk]⟩

/-- Merging caller metadata raises whenever some metadata key is already a
field of the record at merge time (an initial required field or, when
`extra_env` was supplied, `extra_env`). -/
theorem invoke_with_keys_collision (E : Executor α) (fk dk outk sk ck : Key)
    (cs cid : String) (ee : Option (List (String × String)))
    (m : List (String × PyVal)) (dbr : Option (Int × Int)) (ucr : Bool) (ow : Option Dict)
    (hcol : ∃ p ∈ m, p.1 ∈ initFieldNames ∨ (p.1 = "extra_env" ∧ ee.isSome = true)) :
    ∃ k, invoke_with_keys E fk dk outk sk ck cs cid ee (some m) dbr ucr ow =
      .error (.keyCollision k) := by
  have : ∃ p ∈ m, dictMem (argDictWithEnv E fk dk outk sk ck cs cid dbr ucr ee) p.1 = true := by
    obtain ⟨p, hp, hcase⟩ := hcol
    exact ⟨p, hp, (argDictWithEnv_mem E fk dk outk sk ck cs cid dbr ucr ee p.1).mpr hcase⟩
  obtain ⟨k, hk⟩ := mergeMeta_error_of_collision m _ this
  exact ⟨k, by simp [invoke_with_keys, hk]⟩

/-- Metadata with a duplicate key makes `invoke_with_keys` raise: the later
entry collides with the earlier one already added to the record. -/
theorem invoke_with_keys_dup (E : Executor α) (fk dk outk sk ck : Key)
    (cs cid : String) (ee : Option (List (String × String)))
    (m : List (String × PyVal)) (dbr : Option (Int × Int)) (ucr : Bool) (ow : Option Dict)
    (hdup : ¬ (m.map Prod.fst).Nodup) :
    ∃ k, invoke_with_keys E fk dk outk sk ck cs cid ee (some m) dbr ucr ow =
      .error (.keyCollision k) := by
  obtain ⟨k, hk⟩ :=
    mergeMeta_error_of_dup m (argDictWithEnv E fk dk outk sk ck cs cid dbr ucr ee) hdup
  exact ⟨k, by simp [invoke_with_keys, hk]⟩

/-- Metadata whose keys are fresh (no initial field, not `extra_env` when
that is supplied, pairwise distinct) merges successfully; every entry lands in
the dict the backend receives, except that an entry named `host_submit_time`
is silently overwritten by the submission timestamp afterwards: the record
handed to the backend carries the computed timestamp under that key. -/
theorem invoke_with_keys_fresh (E : Executor α) (fk dk outk sk ck : Key)
    (cs cid : String) (ee : Option (List (String × String)))
    (m : List (String × PyVal)) (dbr : Option (Int × Int)) (ucr : Bool)
    (hfresh : ∀ p ∈ m, p.1 ∉ initFieldNames ∧ ¬(p.1 = "extra_env" ∧ ee.isSome = true))
    (hnodup : (m.map Prod.fst).Nodup) :
    ∃ evs fut d, invoke_with_keys E fk dk outk sk ck cs cid ee (some m) dbr ucr none =
        .ok (evs, fut) ∧ evs = [Event.invoke d] ∧
      (∀ p ∈ m, p.1 ≠ "host_submit_time" → dictGet d p.1 = some p.2) ∧
      dictGet d "host_submit_time" = some (.natV E.now) := by
  have hf : ∀ p ∈ m, dictMem (argDictWithEnv E fk dk outk sk ck cs cid dbr ucr ee) p.1 = false := by
    intro p hp
    have hcase := hfresh p hp
    by_contra hc
    have hmem : dictMem (argDictWithEnv E fk dk outk sk ck cs cid dbr ucr ee) p.1 = true := by
      cases hb : dictMem (argDictWithEnv E fk dk outk sk ck cs cid dbr ucr ee) p.1
      · exact absurd hb hc
      · rfl
    rcases (argDictWithEnv_mem E fk dk outk sk ck cs cid dbr ucr ee p.1).mp hmem with h | h
    · exact hcase.1 h
    · exact hcase.2 h
  obtain ⟨d2, hd2, hget⟩ := mergeMeta_ok_of_fresh m _ hf hnodup
  refine ⟨[Event.invoke (dictSet d2 "host_submit_time" (.natV E.now))],
    { call_id := cid, callset_id := cs },
    dictSet d2 "host_submit_time" (.natV E.now), ?_, rfl, ?_, ?_⟩
  · simp [invoke_with_keys, hd2]
  · intro p hp hph
    rw [dictGet_dictSet_other _ _ _ _ hph]
    exact hget p hp
  · exact dictGet_dictSet_self d2 "host_submit_time" (.natV E.now)

/-- On success, `invoke_with_keys` returns the future for exactly the given
call id and callset id. -/
theorem invoke_with_keys_ok_future (E : Executor α) (fk dk outk sk ck : Key)
    (cs cid : String) (ee : Option (List (String × String)))
    (em : Option (List (String × PyVal))) (dbr : Option (Int × Int)) (ucr : Bool)
    (ow : Option Dict) (evs : List Event) (fut : RFuture)
    (h : invoke_with_keys E fk dk outk sk ck cs cid ee em dbr ucr ow = .ok (evs, fut)) :
    fut = { call_id := cid, callset_id := cs } ∧ ∃ d, evs = [Event.invoke d] := by
  simp only [invoke_with_keys] at h
  split at h
  · exact absurd h (by simp)
  · rename_i d2 _
    simp only [Except.ok.injEq, Prod.mk.injEq] at h
    refine ⟨h.2.symm, ?_⟩
    rcases h with ⟨hevs, _⟩
    exact ⟨_, hevs.symm⟩

/-! ## Lemmas: result collection and fan-out tasks -/

theorem errBind (e : Err) (f : β → Except Err γ) :
    ((Except.error e : Except Err β) >>= f) = Except.error e := rfl

theorem okBind (x : β) (f : β → Except Err γ) :
    ((Except.ok x : Except Err β) >>= f) = f x := rfl

/-- Collecting `[c.get() for c in call_result_objs]` succeeds exactly when
every task result is a success, and preserves positions. -/
theorem mapM_id_ok : ∀ (l : List (Except Err RFuture)) (res : List RFuture),
    l.mapM (fun r => r) = .ok res →
    res.length = l.length ∧ ∀ i : Nat, l.get? i = (res.get? i).map Except.ok := by
  intro l
  induction l with
  | nil =>
    intro res h
    simp only [List.mapM_nil, pure, Except.pure, Except.ok.injEq] at h
    subst h
    simp
  | cons x xs ih =>
    intro res h
    rw [List.mapM_cons] at h
    cases x with
    | error e =>
      rw [errBind] at h
      exact Except.noConfusion h
    | ok v =>
      rw [okBind] at h
      cases hm : xs.mapM (fun r => r) with
      | error e =>
        rw [hm, errBind] at h
        exact Except.noConfusion h
      | ok res' =>
        rw [hm, okBind] at h
        have hres : v :: res' = res := by
          simpa [pure, Except.pure] using h
        subst hres
        obtain ⟨hlen, hget⟩ := ih res' hm
        refine ⟨by simp [hlen], ?_⟩
        intro i
        cases i with
        | zero => simp
        | succ i => simpa using hget i

/-- On task success the future carries the task's formatted call id. -/
theorem mapTask_ok_future (E : Executor α) (cs : String) (fk : Key)
    (ee : Option (List (String × String))) (em : Option (List (String × PyVal)))
    (ucr : Bool) (ow : Option Dict) (ak : Option Key) (rs : List (Int × Int))
    (dss : List ByteStr) (i : Nat) (fut : RFuture)
    (h : (mapTask E cs fk ee em ucr ow ak rs dss i).2 = .ok fut) :
    fut = { call_id := format05 i, callset_id := cs } := by
  cases ak with
  | none =>
    simp only [mapTask] at h
    split at h
    · simp at h
    · rename_i evs fut' heq
      have hf : fut' = fut := by simpa using h
      subst hf
      exact (invoke_with_keys_ok_future E _ _ _ _ _ _ _ _ _ _ _ _ _ _ heq).1
  | some ak =>
    simp only [mapTask] at h
    split at h
    · simp at h
    · rename_i evs fut' heq
      have hf : fut' = fut := by simpa using h
      subst hf
      exact (invoke_with_keys_ok_future E _ _ _ _ _ _ _ _ _ _ _ _ _ _ heq).1

/-- A successful task on the aggregated-payload path performs no upload of its
own and hands the backend the aggregated data key and this call's byte
range. -/
theorem mapTask_agg_spec (E : Executor α) (cs : String) (fk : Key)
    (ee : Option (List (String × String))) (em : Option (List (String × PyVal)))
    (ucr : Bool) (ak : Key) (rs : List (Int × Int))
    (dss : List ByteStr) (i : Nat) (fut : RFuture)
    (h : (mapTask E cs fk ee em ucr none (some ak) rs dss i).2 = .ok fut) :
    ∃ d, (mapTask E cs fk ee em ucr none (some ak) rs dss i).1 = [Event.invoke d] ∧
      dictGet d "data_key" = some (.keyV ak) ∧
      dictGet d "data_byte_range" = some (.byteRange (rs.get? i)) ∧
      dictGet d "call_id" = some (.str (format05 i)) := by
  simp only [mapTask] at h ⊢
  split at h
  · simp at h
  · rename_i evs fut' heq
    obtain ⟨d, hevs, h1, h2, h3⟩ :=
      invoke_with_keys_ok_args E _ _ _ _ _ _ _ _ _ _ _ _ _ heq
    subst hevs
    exact ⟨d, rfl, h1, h2, h3⟩

/-- A successful task on the individual-payload path first uploads this call's
payload under its own data key and hands the backend that key and a null byte
range. -/
theorem mapTask_own_spec (E : Executor α) (cs : String) (fk : Key)
    (ee : Option (List (String × String))) (em : Option (List (String × PyVal)))
    (ucr : Bool) (rs : List (Int × Int))
    (dss : List ByteStr) (i : Nat) (fut : RFuture)
    (h : (mapTask E cs fk ee em ucr none none rs dss i).2 = .ok fut) :
    ∃ d, (mapTask E cs fk ee em ucr none none rs dss i).1 =
        [Event.putData (Key.dataKey E.storagePfx cs (format05 i)) (dss.getD i []),
         Event.invoke d] ∧
      dictGet d "data_key" = some (.keyV (Key.dataKey E.storagePfx cs (format05 i))) ∧
      dictGet d "data_byte_range" = some (.byteRange none) ∧
      dictGet d "call_id" = some (.str (format05 i)) := by
  simp only [mapTask] at h ⊢
  split at h
  · simp at h
  · rename_i evs fut' heq
    obtain ⟨d, hevs, h1, h2, h3⟩ :=
      invoke_with_keys_ok_args E _ _ _ _ _ _ _ _ _ _ _ _ _ heq
    subst hevs
    exact ⟨d, rfl, h1, h2, h3⟩


/-! ## Lemmas: `mapPre` -/

/-- When `mod_paths` was assigned (fresh-serialization branch), the exclusion
block never raises and leaves the variable assigned. -/
theorem excludeStep_some (mps : List String) (ex : Option (List String)) :
    ∃ mps', excludeStep (some mps) ex = .ok (some mps') := by
  cases ex with
  | none => exact ⟨mps, rfl⟩
  | some l =>
    cases l with
    | nil => exact ⟨mps, rfl⟩
    | cons m ms => exact ⟨excludeModules mps (m :: ms), rfl⟩

/-- Structural facts about a successful `mapPre`: the payloads are the tail of
the serializer output, the aggregation decision is exactly the threshold test
combined with `data_all_as_one`, the aggregated blob is uploaded exactly when
aggregating, and no other data upload happens in the sequential prefix. -/
theorem mapPre_ok_spec (E : Executor α) (func : α) (data : List α) (daao : Bool)
    (ex : Option (List String)) (mdk : Option String) (cs : String)
    (evs : List Event) (pre : PreOut)
    (h : mapPre E func data daao ex mdk cs = (evs, .ok pre)) :
    pre.data_strs = ((E.serializer mdk.isSome (func :: data)).1).tail ∧
    ((((E.serializer mdk.isSome (func :: data)).1).tail.map List.length).sum <
        E.maxAggDataSize ∧ daao = true →
      pre.aggKey = some (Key.aggDataKey E.storagePfx cs) ∧
      pre.aggRanges = (agg_data (((E.serializer mdk.isSome (func :: data)).1).tail)).2 ∧
      Event.putData (Key.aggDataKey E.storagePfx cs)
        (agg_data (((E.serializer mdk.isSome (func :: data)).1).tail)).1 ∈ evs) ∧
    (¬ ((((E.serializer mdk.isSome (func :: data)).1).tail.map List.length).sum <
        E.maxAggDataSize ∧ daao = true) →
      pre.aggKey = none ∧ pre.aggRanges = []) ∧
    (∀ e ∈ evs, e.isPutData = true →
      ((((E.serializer mdk.isSome (func :: data)).1).tail.map List.length).sum <
          E.maxAggDataSize ∧ daao = true) ∧
      e = Event.putData (Key.aggDataKey E.storagePfx cs)
        (agg_data (((E.serializer mdk.isSome (func :: data)).1).tail)).1) := by
  cases mdk with
  | none =>
    obtain ⟨mps', hex⟩ := excludeStep_some (E.serializer false (func :: data)).2 ex
    simp only [mapPre, hex] at h
    by_cases hc : (((E.serializer false (func :: data)).1).tail.map List.length).sum <
        E.maxAggDataSize ∧ daao = true
    · simp only [if_pos hc] at h
      obtain ⟨hevs, hpre⟩ := Prod.mk.injEq .. |>.mp h
      have hpre' := hpre
      simp only [Except.ok.injEq] at hpre'
      subst hpre'
      subst hevs
      refine ⟨rfl, fun _ => ⟨rfl, rfl, by simp⟩, fun hnc => absurd hc hnc, ?_⟩
      intro e he hput
      refine ⟨hc, ?_⟩
      fin_cases he <;> simp [Event.isPutData] at hput ⊢
    · simp only [if_neg hc] at h
      obtain ⟨hevs, hpre⟩ := Prod.mk.injEq .. |>.mp h
      have hpre' := hpre
      simp only [Except.ok.injEq] at hpre'
      subst hpre'
      subst hevs
      refine ⟨rfl, fun hcc => absurd hcc hc, fun _ => ⟨rfl, rfl⟩, ?_⟩
      intro e he hput
      fin_cases he <;> simp [Event.isPutData] at hput ⊢
  | some mdk =>
    cases hex : excludeStep none ex with
    | error e =>
      simp only [mapPre, hex] at h
      exact absurd h (by simp)
    | ok mp =>
      simp only [mapPre, hex] at h
      by_cases hc : (((E.serializer true (func :: data)).1).tail.map List.length).sum <
          E.maxAggDataSize ∧ daao = true
      · simp only [if_pos hc] at h
        obtain ⟨hevs, hpre⟩ := Prod.mk.injEq .. |>.mp h
        have hpre' := hpre
        simp only [Except.ok.injEq] at hpre'
        subst hpre'
        subst hevs
        refine ⟨rfl, fun _ => ⟨rfl, rfl, by simp⟩, fun hnc => absurd hc hnc, ?_⟩
        intro e he hput
        refine ⟨hc, ?_⟩
        fin_cases he <;> simp [Event.isPutData] at hput ⊢
      · simp only [if_neg hc] at h
        obtain ⟨hevs, hpre⟩ := Prod.mk.injEq .. |>.mp h
        have hpre' := hpre
        simp only [Except.ok.injEq] at hpre'
        subst hpre'
        subst hevs
        refine ⟨rfl, fun hcc => absurd hcc hc, fun _ => ⟨rfl, rfl⟩, ?_⟩
        intro e he hput
        fin_cases he <;> simp [Event.isPutData] at hput ⊢

/-- On the cached-dependency branch (`module_dependencies_key` supplied) with
a non-empty `exclude_modules`, the sequential prefix raises the unbound-local
error and never uploads a function package or invokes the backend. -/
theorem mapPre_unbound (E : Executor α) (func : α) (data : List α) (daao : Bool)
    (k m : String) (ms : List String) (cs : String) (evs : List Event) (r : Except Err PreOut)
    (h : mapPre E func data daao (some (m :: ms)) (some k) cs = (evs, r)) :
    r = .error .unboundLocal ∧ ∀ e ∈ evs, e.isPutFunc = false ∧ e.isInvoke = false := by
  simp only [mapPre, excludeStep] at h
  by_cases hc : (((E.serializer true (func :: data)).1).tail.map List.length).sum <
      E.maxAggDataSize ∧ daao = true
  · simp only [if_pos hc] at h
    obtain ⟨hevs, hr⟩ := Prod.mk.injEq .. |>.mp h
    subst hevs
    refine ⟨hr.symm, ?_⟩
    intro e he
    fin_cases he <;> simp [Event.isPutFunc, Event.isInvoke]
  · simp only [if_neg hc] at h
    obtain ⟨hevs, hr⟩ := Prod.mk.injEq .. |>.mp h
    subst hevs
    refine ⟨hr.symm, ?_⟩
    intro e he
    fin_cases he <;> simp [Event.isPutFunc, Event.isInvoke]

/-- Common extraction for a successful `map`: results are collected by
submission index, so the `i`-th returned future is the one whose call id is
the formatted index `i`, whatever the pool schedule was. -/
theorem map_ok_futures (E : Executor α) (func : α) (iterdata : List α)
    (ee : Option (List (String × String))) (em : Option (List (String × PyVal)))
    (daao ucr : Bool) (ow : Option Dict) (ex : Option (List String))
    (mdk : Option String) (cs : String) (sched : List Nat) (res : List RFuture)
    (h : (E.map func iterdata ee em daao ucr ow ex mdk cs sched).2 = .ok res) :
    res.length = iterdata.length ∧
    ∀ i (hi : i < res.length), res.get ⟨i, hi⟩ =
      { call_id := format05 i, callset_id := cs } := by
  simp only [Executor.map] at h
  split at h
  · rename_i hemp
    simp only [Except.ok.injEq] at h
    subst h
    simp only [List.length_nil, List.isEmpty_iff] at hemp ⊢
    subst hemp
    exact ⟨rfl, fun i hi => absurd hi (by simp)⟩
  · split at h
    · exact absurd h (by simp)
    · rename_i hemp hlim
      cases hpre : mapPre E func iterdata daao ex mdk cs with
      | mk evs r =>
        rw [hpre] at h
        cases r with
        | error e => exact absurd h (by simp)
        | ok pre =>
          simp only at h
          obtain ⟨hlen, hget⟩ := mapM_id_ok _ res h
          have hlen' : res.length = iterdata.length := by
            rw [hlen, List.length_map, List.length_range]
          refine ⟨hlen', ?_⟩
          intro i hi
          have hi' : i < iterdata.length := hlen' ▸ hi
          have h1 := hget i
          rw [List.get?_map, List.get?_range hi',
            List.get?_eq_get hi] at h1
          simp only [Option.map_some'] at h1
          exact mapTask_ok_future E cs pre.func_key ee em ucr ow pre.aggKey pre.aggRanges
            pre.data_strs i _ (Option.some.injEq .. |>.mp h1)

/-! ## A concrete executor instance, for evaluating the theorems -/

/-- A small concrete executor over `Nat` inputs: each object serializes to the
one-byte payload `[n]`, two module paths are captured, and the configured map
item limit is `10`. -/
def sampleE : Executor Nat where
  map_item_limit := some 10
  storagePfx := "p"
  runtimeName := "rt"
  job_max_runtime := 300
  versionTag := "0.1"
  runtime_url := ""
  storage_config := "cfg"
  maxAggDataSize := 100
  now := 7
  serializer := fun _ xs => (xs.map (fun n => [n]), ["modA", "modB"])
  create_mod_data := fun l => [l.length]
  pickleFuncModule := fun a b => a ++ b

/-! ## Claim theorems -/

/-- **C1.** For every call to `map` with `N` inputs that returns normally, the
returned list has length `N` and its `i`-th element is the `ResultHandle` for
the `i`-th input — the handle carrying call id `"{:05d}".format(i)` — for
every order `sched` in which the worker-pool tasks complete. -/
theorem map_returns_handles_in_input_order (E : Executor α) (func : α) (iterdata : List α)
    (ee : Option (List (String × String))) (em : Option (List (String × PyVal)))
    (daao ucr : Bool) (ow : Option Dict) (ex : Option (List String))
    (mdk : Option String) (cs : String) (sched : List Nat)
    (hsched : sched.Perm (List.range iterdata.length)) (res : List RFuture)
    (h : (E.map func iterdata ee em daao ucr ow ex mdk cs sched).2 = .ok res) :
    res.length = iterdata.length ∧
    ∀ i (hi : i < res.length), res.get ⟨i, hi⟩ =
      { call_id := format05 i, callset_id := cs } :=
  map_ok_futures E func iterdata ee em daao ucr ow ex mdk cs sched res h

theorem map_returns_handles_in_input_order_witness :
    ([1, 0] : List Nat).Perm (List.range ([5, 6] : List Nat).length) ∧
    ((sampleE.map 99 [5, 6] none none true true none none none "cs" [1, 0]).2 =
      .ok [{ call_id := "00000", callset_id := "cs" }, { call_id := "00001", callset_id := "cs" }]) ∧
    ([{ call_id := "00000", callset_id := "cs" }, { call_id := "00001", callset_id := "cs" }] :
        List RFuture).length = ([5, 6] : List Nat).length ∧
    ∀ i (hi : i < ([{ call_id := "00000", callset_id := "cs" },
        { call_id := "00001", callset_id := "cs" }] : List RFuture).length),
      ([{ call_id := "00000", callset_id := "cs" }, { call_id := "00001", callset_id := "cs" }] :
        List RFuture).get ⟨i, hi⟩ = { call_id := format05 i, callset_id := "cs" } :=
  ⟨by decide, rfl,
    map_returns_handles_in_input_order sampleE 99 [5, 6] none none true true none none none
      "cs" [1, 0] (by decide)
      [{ call_id := "00000", callset_id := "cs" }, { call_id := "00001", callset_id := "cs" }]
      rfl⟩

/-- **C3.** `map(func, [])` returns the empty list immediately: no serializer
call, no storage operation, no backend invocation (the trace is empty). -/
theorem map_empty_input (E : Executor α) (func : α)
    (ee : Option (List (String × String))) (em : Option (List (String × PyVal)))
    (daao ucr : Bool) (ow : Option Dict) (ex : Option (List String))
    (mdk : Option String) (cs : String) (sched : List Nat) :
    E.map func [] ee em daao ucr ow ex mdk cs sched = ([], .ok []) := rfl

/-- **C4.** With a configured map item limit and more inputs than the limit,
`map` raises the `ValueError` synchronously, with an empty trace: no
packaging, storage, or backend side effect has happened. -/
theorem map_limit_rejects (E : Executor α) (func : α) (iterdata : List α)
    (ee : Option (List (String × String))) (em : Option (List (String × PyVal)))
    (daao ucr : Bool) (ow : Option Dict) (ex : Option (List String))
    (mdk : Option String) (cs : String) (sched : List Nat) (lim : Nat)
    (hlim : E.map_item_limit = some lim) (hlen : lim < iterdata.length) :
    E.map func iterdata ee em daao ucr ow ex mdk cs sched = ([], .error .itemLimit) := by
  have hemp : iterdata.isEmpty = false := by
    cases iterdata with
    | nil => simp at hlen
    | cons a l => rfl
  simp only [Executor.map, hemp, Bool.false_eq_true, if_false, hlim]
  rw [if_pos (by simpa using hlen)]

theorem map_limit_rejects_witness :
    sampleE.map_item_limit = some 10 ∧ 10 < ([1, 2, 3, 4, 5, 6, 7, 8, 9, 10, 11] : List Nat).length ∧
    sampleE.map 99 [1, 2, 3, 4, 5, 6, 7, 8, 9, 10, 11] none none true true none none none
      "cs" [] = ([], .error .itemLimit) :=
  ⟨rfl, by decide,
    map_limit_rejects sampleE 99 [1, 2, 3, 4, 5, 6, 7, 8, 9, 10, 11] none none true true
      none none none "cs" [] 10 rfl (by decide)⟩

/-- **C5.** For every `map` call that returns normally, call ids are the
zero-padded sequence numbers `"{:05d}".format(i)`: the `i`-th handle's id
denotes exactly `i` (so ids strictly increase with the input index), and for
up to `100000` inputs every id is exactly five characters wide. -/
theorem map_call_ids_sequential (E : Executor α) (func : α) (iterdata : List α)
    (ee : Option (List (String × String))) (em : Option (List (String × PyVal)))
    (daao ucr : Bool) (ow : Option Dict) (ex : Option (List String))
    (mdk : Option String) (cs : String) (sched : List Nat) (res : List RFuture)
    (h : (E.map func iterdata ee em daao ucr ow ex mdk cs sched).2 = .ok res) :
    (∀ i (hi : i < res.length), (res.get ⟨i, hi⟩).call_id = format05 i ∧
      valueOfId ((res.get ⟨i, hi⟩).call_id) = i) ∧
    (∀ i j (hi : i < res.length) (hj : j < res.length), i < j →
      valueOfId ((res.get ⟨i, hi⟩).call_id) < valueOfId ((res.get ⟨j, hj⟩).call_id)) ∧
    (res.length ≤ 100000 → ∀ i (hi : i < res.length),
      ((res.get ⟨i, hi⟩).call_id).data.length = 5) := by
  obtain ⟨hlen, hget⟩ := map_ok_futures E func iterdata ee em daao ucr ow ex mdk cs sched res h
  have hid : ∀ i (hi : i < res.length), (res.get ⟨i, hi⟩).call_id = format05 i := by
    intro i hi
    rw [hget i hi]
  refine ⟨?_, ?_, ?_⟩
  · intro i hi
    refine ⟨hid i hi, ?_⟩
    rw [hid i hi, valueOfId_format05]
  · intro i j hi hj hij
    rw [hid i hi, hid j hj, valueOfId_format05, valueOfId_format05]
    exact hij
  · intro hN i hi
    rw [hid i hi]
    exact format05_length i (by omega)

theorem map_call_ids_sequential_witness :
    ((sampleE.map 99 [7, 8, 9] none none true true none none none "cs" [2, 0, 1]).2 =
      .ok [{ call_id := "00000", callset_id := "cs" }, { call_id := "00001", callset_id := "cs" },
           { call_id := "00002", callset_id := "cs" }]) ∧
    ((∀ i (hi : i < ([{ call_id := "00000", callset_id := "cs" },
          { call_id := "00001", callset_id := "cs" },
          { call_id := "00002", callset_id := "cs" }] : List RFuture).length),
        (([{ call_id := "00000", callset_id := "cs" }, { call_id := "00001", callset_id := "cs" },
          { call_id := "00002", callset_id := "cs" }] : List RFuture).get ⟨i, hi⟩).call_id =
            format05 i ∧
        valueOfId ((([{ call_id := "00000", callset_id := "cs" },
          { call_id := "00001", callset_id := "cs" },
          { call_id := "00002", callset_id := "cs" }] : List RFuture).get ⟨i, hi⟩).call_id) = i) ∧
      (∀ i j (hi : i < ([{ call_id := "00000", callset_id := "cs" },
          { call_id := "00001", callset_id := "cs" },
          { call_id := "00002", callset_id := "cs" }] : List RFuture).length)
          (hj : j < ([{ call_id := "00000", callset_id := "cs" },
          { call_id := "00001", callset_id := "cs" },
          { call_id := "00002", callset_id := "cs" }] : List RFuture).length), i < j →
        valueOfId ((([{ call_id := "00000", callset_id := "cs" },
          { call_id := "00001", callset_id := "cs" },
          { call_id := "00002", callset_id := "cs" }] : List RFuture).get ⟨i, hi⟩).call_id) <
        valueOfId ((([{ call_id := "00000", callset_id := "cs" },
          { call_id := "00001", callset_id := "cs" },
          { call_id := "00002", callset_id := "cs" }] : List RFuture).get ⟨j, hj⟩).call_id)) ∧
      (([{ call_id := "00000", callset_id := "cs" }, { call_id := "00001", callset_id := "cs" },
          { call_id := "00002", callset_id := "cs" }] : List RFuture).length ≤ 100000 →
        ∀ i (hi : i < ([{ call_id := "00000", callset_id := "cs" },
          { call_id := "00001", callset_id := "cs" },
          { call_id := "00002", callset_id := "cs" }] : List RFuture).length),
        ((([{ call_id := "00000", callset_id := "cs" }, { call_id := "00001", callset_id := "cs" },
          { call_id := "00002", callset_id := "cs" }] : List RFuture).get ⟨i, hi⟩).call_id).data.length
          = 5)) :=
  ⟨rfl,
    map_call_ids_sequential sampleE 99 [7, 8, 9] none none true true none none none
      "cs" [2, 0, 1]
      [{ call_id := "00000", callset_id := "cs" }, { call_id := "00001", callset_id := "cs" },
       { call_id := "00002", callset_id := "cs" }] rfl⟩

/-- **C10 counterexample.** The claim quantifies over *every* `map` call with
a non-empty input list, a supplied `module_dependencies_key` and a non-empty
`exclude_modules`; but when the configured map item limit is also exceeded,
`map` raises the item-limit `ValueError` first, not the unbound-name error:
`sampleE` has limit `10` and eleven inputs trigger `Err.itemLimit`, which is
not `Err.unboundLocal`. -/
theorem map_unbound_counterexample :
    (sampleE.map 99 [1, 2, 3, 4, 5, 6, 7, 8, 9, 10, 11] none none true true none
      (some ["modA"]) (some "k") "cs" []).2 = .error .itemLimit ∧
    Err.itemLimit ≠ Err.unboundLocal :=
  ⟨rfl, by decide⟩

/-- **C10 (amended).** For every `map` call with a non-empty input list, a
supplied `module_dependencies_key`, a non-empty `exclude_modules`, *and an
input count within the configured item limit (if any)*, `map` raises the
unbound-local error — on the cached-dependency path only `mod_path` is
assigned (executor.py line 249) while the exclusion loop reads `mod_paths`
(line 273) — and its trace contains no function-package upload and no backend
invocation. -/
theorem map_cached_deps_exclusion_unbound (E : Executor α) (func : α) (iterdata : List α)
    (ee : Option (List (String × String))) (em : Option (List (String × PyVal)))
    (daao ucr : Bool) (ow : Option Dict) (cs : String) (sched : List Nat)
    (k m : String) (ms : List String)
    (hne : iterdata ≠ [])
    (hlim : ∀ lim, E.map_item_limit = some lim → iterdata.length ≤ lim) :
    (E.map func iterdata ee em daao ucr ow (some (m :: ms)) (some k) cs sched).2 =
      .error .unboundLocal ∧
    ∀ e ∈ (E.map func iterdata ee em daao ucr ow (some (m :: ms)) (some k) cs sched).1,
      e.isPutFunc = false ∧ e.isInvoke = false := by
  have hemp : iterdata.isEmpty = false := by
    cases iterdata with
    | nil => exact absurd rfl hne
    | cons a l => rfl
  have hlimb : (match E.map_item_limit with
      | some lim => decide (iterdata.length > lim)
      | none => false) = false := by
    cases hml : E.map_item_limit with
    | none => rfl
    | some lim => simpa using hlim lim hml
  simp only [Executor.map, hemp, Bool.false_eq_true, if_false, hlimb]
  cases hpre : mapPre E func iterdata daao (some (m :: ms)) (some k) cs with
  | mk evs r =>
    obtain ⟨hr, hevs⟩ := mapPre_unbound E func iterdata daao k m ms cs evs r hpre
    subst hr
    exact ⟨rfl, hevs⟩

theorem map_cached_deps_exclusion_unbound_witness :
    (([5] : List Nat) ≠ []) ∧
    (∀ lim, sampleE.map_item_limit = some lim → ([5] : List Nat).length ≤ lim) ∧
    ((sampleE.map 99 [5] none none true true none (some ["modA"]) (some "k") "cs" [0]).2 =
      .error .unboundLocal ∧
    ∀ e ∈ (sampleE.map 99 [5] none none true true none (some ["modA"]) (some "k") "cs" [0]).1,
      e.isPutFunc = false ∧ e.isInvoke = false) :=
  ⟨by decide,
   fun lim hl => by
     cases hl
     decide,
   map_cached_deps_exclusion_unbound sampleE 99 [5] none none true true none "cs" [0]
     "k" "modA" [] (by decide)
     (fun lim hl => by
       cases hl
       decide)⟩

/-- **C2.** `agg_data` returns one inclusive `(start, end)` range per payload
in submission order; the ranges start at `0`, are contiguous
(`start(i+1) = end(i) + 1`) and non-overlapping (`end(i) < start(j)` for
`i < j`), and slicing the blob by any range reconstructs exactly that
payload: `blob[start : end + 1] = payloads[i]`. -/
theorem agg_data_round_trip (ds : List ByteStr) :
    (agg_data ds).2.length = ds.length ∧
    (∀ r : Int × Int, (agg_data ds).2.get? 0 = some r → r.1 = 0) ∧
    (∀ (i : Nat) (r r' : Int × Int), (agg_data ds).2.get? i = some r →
      (agg_data ds).2.get? (i + 1) = some r' → r'.1 = r.2 + 1) ∧
    (∀ (i j : Nat) (r r' : Int × Int), i < j → (agg_data ds).2.get? i = some r →
      (agg_data ds).2.get? j = some r' → r.2 < r'.1) ∧
    (∀ (i : Nat) (r : Int × Int) (d : ByteStr), (agg_data ds).2.get? i = some r →
      ds.get? i = some d → pySliceNN (agg_data ds).1 r.1 (r.2 + 1) = d) := by
  refine ⟨aggRanges_length ds 0, ?_, ?_, ?_, ?_⟩
  · intro r h
    exact aggRanges_first_start ds 0 r h
  · intro i r r' h h'
    exact aggRanges_contiguous ds 0 i r r' h h'
  · intro i j r r' hij h h'
    exact aggRanges_disjoint ds 0 i j r r' hij h h'
  · intro i r d h hd
    have h0 : ((([] : ByteStr).length : Int)) = (0 : Int) := rfl
    have := aggRanges_slice ds [] i r d (by rw [show ((([] : ByteStr).length : Int)) = (0 : Int) from rfl]; exact h) hd
    simpa using this

theorem agg_data_round_trip_witness :
    (agg_data [[1, 2], [], [3]]).2.length = ([[1, 2], [], [3]] : List ByteStr).length ∧
    ((agg_data [[1, 2], [], [3]]).2.get? 0 = some (0, 1) ∧
     (agg_data [[1, 2], [], [3]]).2.get? 1 = some (2, 1) ∧
     (agg_data [[1, 2], [], [3]]).2.get? 2 = some (2, 2)) ∧
    pySliceNN (agg_data [[1, 2], [], [3]]).1 0 2 = [1, 2] ∧
    pySliceNN (agg_data [[1, 2], [], [3]]).1 2 2 = [] ∧
    pySliceNN (agg_data [[1, 2], [], [3]]).1 2 3 = [3] :=
  ⟨(agg_data_round_trip [[1, 2], [], [3]]).1, ⟨by decide, by decide, by decide⟩,
    (agg_data_round_trip [[1, 2], [], [3]]).2.2.2.2 0 (0, 1) [1, 2] (by decide) (by decide),
    (agg_data_round_trip [[1, 2], [], [3]]).2.2.2.2 1 (2, 1) [] (by decide) (by decide),
    (agg_data_round_trip [[1, 2], [], [3]]).2.2.2.2 2 (2, 2) [3] (by decide) (by decide)⟩

/-- **C6 counterexample.** `host_submit_time` is a required field of the
`InvocationArguments` record — `invoke_with_keys` always sets it (executor.py
line 127) — yet caller metadata carrying that very key does not make the
merge fail: the call succeeds and the backend is invoked (the metadata value
is silently overwritten by the computed timestamp afterwards, since the
sanity check at lines 121-123 runs before the field is added). -/
theorem invoke_meta_required_collision_undetected :
    "host_submit_time" ∈ requiredFieldNames ∧
    (invoke_with_keys sampleE (Key.funcKey "p" "cs") (Key.dataKey "p" "cs" "00000")
      (Key.outputKey "p" "cs" "00000") (Key.statusKey "p" "cs" "00000")
      (Key.cancelKey "p" "cs" "00000") "cs" "00000" none
      (some [("host_submit_time", .natV 3)]) none true none).isOk = true :=
  ⟨by decide, rfl⟩

/-- **C6 (amended).** Merging caller metadata into the record fails — before
the backend is invoked, with no event emitted — whenever a metadata key
collides with a field present in the record *at merge time*: the required
fields other than the submission timestamp (`initFieldNames`), or `extra_env`
when supplied, or an earlier metadata entry (duplicate key).  With no such
colliding key, the merge succeeds, the backend is invoked, and every metadata
entry is in the record it receives — except that an entry named
`host_submit_time` (a required field set only after the merge) is silently
overwritten rather than rejected. -/
theorem invoke_meta_merge (E : Executor α) (fk dk outk sk ck : Key) (cs cid : String)
    (ee : Option (List (String × String))) (m : List (String × PyVal))
    (dbr : Option (Int × Int)) (ucr : Bool) :
    (((∃ p ∈ m, p.1 ∈ initFieldNames ∨ (p.1 = "extra_env" ∧ ee.isSome = true)) ∨
        ¬ (m.map Prod.fst).Nodup) →
      ∀ ow, ∃ k, invoke_with_keys E fk dk outk sk ck cs cid ee (some m) dbr ucr ow =
        .error (.keyCollision k)) ∧
    ((∀ p ∈ m, p.1 ∉ initFieldNames ∧ ¬(p.1 = "extra_env" ∧ ee.isSome = true)) →
      (m.map Prod.fst).Nodup →
      ∃ evs fut d, invoke_with_keys E fk dk outk sk ck cs cid ee (some m) dbr ucr none =
          .ok (evs, fut) ∧ evs = [Event.invoke d] ∧
        (∀ p ∈ m, p.1 ≠ "host_submit_time" → dictGet d p.1 = some p.2) ∧
        dictGet d "host_submit_time" = some (.natV E.now)) := by
  constructor
  · intro hcol ow
    rcases hcol with hcol | hdup
    · exact invoke_with_keys_collision E fk dk outk sk ck cs cid ee m dbr ucr ow hcol
    · exact invoke_with_keys_dup E fk dk outk sk ck cs cid ee m dbr ucr ow hdup
  · intro h1 h2
    exact invoke_with_keys_fresh E fk dk outk sk ck cs cid ee m dbr ucr h1 h2

theorem invoke_meta_merge_witness :
    (∃ k, invoke_with_keys sampleE (Key.funcKey "p" "cs") (Key.dataKey "p" "cs" "00000")
      (Key.outputKey "p" "cs" "00000") (Key.statusKey "p" "cs" "00000")
      (Key.cancelKey "p" "cs" "00000") "cs" "00000" none
      (some [("data_key", .natV 1)]) none true none = .error (.keyCollision k)) ∧
    (∃ k, invoke_with_keys sampleE (Key.funcKey "p" "cs") (Key.dataKey "p" "cs" "00002")
      (Key.outputKey "p" "cs" "00002") (Key.statusKey "p" "cs" "00002")
      (Key.cancelKey "p" "cs" "00002") "cs" "00002" none
      (some [("dup", .natV 1), ("dup", .natV 2)]) none true none =
        .error (.keyCollision k)) ∧
    (∃ evs fut d, invoke_with_keys sampleE (Key.funcKey "p" "cs") (Key.dataKey "p" "cs" "00001")
      (Key.outputKey "p" "cs" "00001") (Key.statusKey "p" "cs" "00001")
      (Key.cancelKey "p" "cs" "00001") "cs" "00001" none
      (some [("custom", .natV 1), ("host_submit_time", .natV 3)]) none true none =
        .ok (evs, fut) ∧
      evs = [Event.invoke d] ∧
      (∀ p ∈ ([("custom", PyVal.natV 1), ("host_submit_time", PyVal.natV 3)] :
          List (String × PyVal)),
        p.1 ≠ "host_submit_time" → dictGet d p.1 = some p.2) ∧
      dictGet d "host_submit_time" = some (.natV 7)) :=
  ⟨(invoke_meta_merge sampleE (Key.funcKey "p" "cs") (Key.dataKey "p" "cs" "00000")
      (Key.outputKey "p" "cs" "00000") (Key.statusKey "p" "cs" "00000")
      (Key.cancelKey "p" "cs" "00000") "cs" "00000" none [("data_key", .natV 1)]
      none true).1 (Or.inl (by decide)) none,
   (invoke_meta_merge sampleE (Key.funcKey "p" "cs") (Key.dataKey "p" "cs" "00002")
      (Key.outputKey "p" "cs" "00002") (Key.statusKey "p" "cs" "00002")
      (Key.cancelKey "p" "cs" "00002") "cs" "00002" none
      [("dup", .natV 1), ("dup", .natV 2)] none true).1 (Or.inr (by decide)) none,
   (invoke_meta_merge sampleE (Key.funcKey "p" "cs") (Key.dataKey "p" "cs" "00001")
      (Key.outputKey "p" "cs" "00001") (Key.statusKey "p" "cs" "00001")
      (Key.cancelKey "p" "cs" "00001") "cs" "00001" none
      [("custom", .natV 1), ("host_submit_time", .natV 3)]
      none true).2 (by decide) (by decide)⟩

/-- The per-input serialized payloads of a `map` call: `data_strs`
(executor.py line 252). -/
def dataStrsOf (E : Executor α) (func : α) (iterdata : List α) (mdk : Option String) :
    List ByteStr :=
  ((E.serializer mdk.isSome (func :: iterdata)).1).tail

/-- The total serialized payload size: `data_size_bytes` (executor.py line
253). -/
def dataSizeOf (E : Executor α) (func : α) (iterdata : List α) (mdk : Option String) : Nat :=
  ((dataStrsOf E func iterdata mdk).map List.length).sum

/-- **C7.** With no override injection, payloads are aggregated into a single
blob exactly when the total serialized size is below the fixed threshold and
the caller has not opted out of `data_all_as_one`.  When aggregating, the one
data upload is the aggregated blob, and every call's invocation record
carries the aggregated data key plus that call's byte range.  Otherwise every
call uploads its own payload under its own data key and its record carries a
null byte range and its own key. -/
theorem map_aggregation_decision (E : Executor α) (func : α) (iterdata : List α)
    (ee : Option (List (String × String))) (em : Option (List (String × PyVal)))
    (daao ucr : Bool) (ex : Option (List String)) (mdk : Option String)
    (cs : String) (sched : List Nat)
    (hser : ∀ (b : Bool) (xs : List α), ((E.serializer b xs).1).length = xs.length)
    (hsched : sched.Perm (List.range iterdata.length))
    (hne : iterdata ≠ []) (tr : List Event) (res : List RFuture)
    (h : E.map func iterdata ee em daao ucr none ex mdk cs sched = (tr, .ok res)) :
    ((dataSizeOf E func iterdata mdk < E.maxAggDataSize ∧ daao = true) →
      Event.putData (Key.aggDataKey E.storagePfx cs)
        (agg_data (dataStrsOf E func iterdata mdk)).1 ∈ tr ∧
      (∀ e ∈ tr, e.isPutData = true →
        e = Event.putData (Key.aggDataKey E.storagePfx cs)
          (agg_data (dataStrsOf E func iterdata mdk)).1) ∧
      (∀ i, i < iterdata.length → ∃ (d : Dict) (r : Int × Int),
        (agg_data (dataStrsOf E func iterdata mdk)).2.get? i = some r ∧
        Event.invoke d ∈ tr ∧
        dictGet d "call_id" = some (.str (format05 i)) ∧
        dictGet d "data_key" = some (.keyV (Key.aggDataKey E.storagePfx cs)) ∧
        dictGet d "data_byte_range" = some (.byteRange (some r)))) ∧
    (¬ (dataSizeOf E func iterdata mdk < E.maxAggDataSize ∧ daao = true) →
      (∀ e ∈ tr, e.isPutData = true → ∃ i, i < iterdata.length ∧
        e = Event.putData (Key.dataKey E.storagePfx cs (format05 i))
          ((dataStrsOf E func iterdata mdk).getD i [])) ∧
      (∀ i, i < iterdata.length →
        Event.putData (Key.dataKey E.storagePfx cs (format05 i))
          ((dataStrsOf E func iterdata mdk).getD i []) ∈ tr ∧
        ∃ d : Dict, Event.invoke d ∈ tr ∧
          dictGet d "call_id" = some (.str (format05 i)) ∧
          dictGet d "data_key" = some (.keyV (Key.dataKey E.storagePfx cs (format05 i))) ∧
          dictGet d "data_byte_range" = some (.byteRange none))) := by
  simp only [Executor.map] at h
  split at h
  · rename_i hemp
    rw [List.isEmpty_iff] at hemp
    exact absurd hemp hne
  · split at h
    · exact absurd (Prod.mk.injEq .. |>.mp h).2 (by simp)
    · cases hpre : mapPre E func iterdata daao ex mdk cs with
      | mk evs r =>
        rw [hpre] at h
        cases r with
        | error e => exact absurd (Prod.mk.injEq .. |>.mp h).2 (by simp)
        | ok pre =>
          simp only at h
          obtain ⟨htr, hcol⟩ := Prod.mk.injEq .. |>.mp h
          obtain ⟨hds, hpos, hneg, hputs⟩ :=
            mapPre_ok_spec E func iterdata daao ex mdk cs evs pre hpre
          obtain ⟨hlen, hget⟩ := mapM_id_ok _ res hcol
          have hlen' : res.length = iterdata.length := by
            rw [hlen, List.length_map, List.length_range]
          have htask : ∀ i, i < iterdata.length →
              ∃ fut, (mapTask E cs pre.func_key ee em ucr none pre.aggKey pre.aggRanges
                pre.data_strs i).2 = .ok fut := by
            intro i hi
            have h1 := hget i
            rw [List.get?_map, List.get?_range hi, List.get?_eq_get (hlen' ▸ hi)] at h1
            simp only [Option.map_some'] at h1
            exact ⟨_, Option.some.injEq .. |>.mp h1⟩
          have hdsslen : pre.data_strs.length = iterdata.length := by
            rw [hds, List.length_tail, hser]
            simp
          have hmemsched : ∀ i, i < iterdata.length → i ∈ sched := fun i hi =>
            (hsched.mem_iff).mpr (List.mem_range.mpr hi)
          subst htr
          constructor
          · intro hc
            have hc' : (((E.serializer mdk.isSome (func :: iterdata)).1).tail.map
                List.length).sum < E.maxAggDataSize ∧ daao = true := by
              simpa [dataSizeOf, dataStrsOf] using hc
            obtain ⟨hak, har, haggmem⟩ := hpos hc'
            refine ⟨List.mem_append_left _ haggmem, ?_, ?_⟩
            · intro e he hput
              rcases List.mem_append.mp he with h1 | h1
              · exact (hputs e h1 hput).2
              · obtain ⟨j, hjs, hje⟩ := List.mem_flatMap.mp h1
                have hjN : j < iterdata.length := List.mem_range.mp ((hsched.mem_iff).mp hjs)
                obtain ⟨fut, hfut⟩ := htask j hjN
                rw [hak] at hfut
                obtain ⟨d, hevs', _, _, _⟩ := mapTask_agg_spec E cs pre.func_key ee em ucr _
                  pre.aggRanges pre.data_strs j fut hfut
                rw [hak, hevs'] at hje
                rw [List.mem_singleton.mp hje] at hput
                exact absurd hput (by simp [Event.isInvoke, Event.isPutData])
            · intro i hi
              obtain ⟨fut, hfut⟩ := htask i hi
              rw [hak] at hfut
              obtain ⟨d, hevs', hdk, hdbr, hcid⟩ := mapTask_agg_spec E cs pre.func_key ee em ucr _
                pre.aggRanges pre.data_strs i fut hfut
              have hrlen : pre.aggRanges.length = iterdata.length := by
                rw [har]
                show (aggRanges 0 (((E.serializer mdk.isSome (func :: iterdata)).1).tail)).length =
                  iterdata.length
                rw [aggRanges_length]
                rw [List.length_tail, hser]
                simp
              obtain ⟨r, hr⟩ : ∃ r, pre.aggRanges.get? i = some r := by
                cases hq : pre.aggRanges.get? i with
                | none =>
                  rw [List.get?_eq_none] at hq
                  omega
                | some r => exact ⟨r, rfl⟩
              refine ⟨d, r, ?_, ?_, hcid, hdk, ?_⟩
              · show (agg_data (((E.serializer mdk.isSome (func :: iterdata)).1).tail)).2.get? i =
                  some r
                rw [← har]
                exact hr
              · refine List.mem_append_right _ (List.mem_flatMap.mpr ⟨i, hmemsched i hi, ?_⟩)
                rw [hak, hevs']
                exact List.mem_singleton.mpr rfl
              · rw [hr] at hdbr
                exact hdbr
          · intro hc
            have hc' : ¬ ((((E.serializer mdk.isSome (func :: iterdata)).1).tail.map
                List.length).sum < E.maxAggDataSize ∧ daao = true) := by
              simpa [dataSizeOf, dataStrsOf] using hc
            obtain ⟨hak, har⟩ := hneg hc'
            constructor
            · intro e he hput
              rcases List.mem_append.mp he with h1 | h1
              · exact absurd (hputs e h1 hput).1 hc'
              · obtain ⟨j, hjs, hje⟩ := List.mem_flatMap.mp h1
                have hjN : j < iterdata.length := List.mem_range.mp ((hsched.mem_iff).mp hjs)
                obtain ⟨fut, hfut⟩ := htask j hjN
                rw [hak] at hfut
                obtain ⟨d, hevs', _, _, _⟩ := mapTask_own_spec E cs pre.func_key ee em ucr
                  pre.aggRanges pre.data_strs j fut hfut
                rw [hak, hevs'] at hje
                rcases List.mem_cons.mp hje with h2 | h2
                · refine ⟨j, hjN, ?_⟩
                  rw [h2, hds]
                  rfl
                · rw [List.mem_singleton.mp h2] at hput
                  exact absurd hput (by simp [Event.isInvoke, Event.isPutData])
            · intro i hi
              obtain ⟨fut, hfut⟩ := htask i hi
              rw [hak] at hfut
              obtain ⟨d, hevs', hdk, hdbr, hcid⟩ := mapTask_own_spec E cs pre.func_key ee em ucr
                pre.aggRanges pre.data_strs i fut hfut
              constructor
              · refine List.mem_append_right _ (List.mem_flatMap.mpr ⟨i, hmemsched i hi, ?_⟩)
                rw [hak, hevs', hds]
                exact List.mem_cons_self _ _
              · refine ⟨d, ?_, hcid, hdk, hdbr⟩
                refine List.mem_append_right _ (List.mem_flatMap.mpr ⟨i, hmemsched i hi, ?_⟩)
                rw [hak, hevs']
                exact List.mem_cons_of_mem _ (List.mem_singleton.mpr rfl)

theorem map_aggregation_decision_witness :
    (∀ (b : Bool) (xs : List Nat), ((sampleE.serializer b xs).1).length = xs.length) ∧
    ([0] : List Nat).Perm (List.range ([5] : List Nat).length) ∧
    (([5] : List Nat) ≠ []) ∧
    sampleE.map 99 [5] none none true true none none none "cs" [0] =
      ([Event.serializerCall 2,
        Event.putData (Key.aggDataKey "p" "cs") [5],
        Event.putFunc (Key.funcKey "p" "cs") [99, 2],
        Event.invoke
          [("storage_config", PyVal.str "cfg"),
           ("func_key", PyVal.keyV (Key.funcKey "p" "cs")),
           ("data_key", PyVal.keyV (Key.aggDataKey "p" "cs")),
           ("output_key", PyVal.keyV (Key.outputKey "p" "cs" "00000")),
           ("status_key", PyVal.keyV (Key.statusKey "p" "cs" "00000")),
           ("cancel_key", PyVal.keyV (Key.cancelKey "p" "cs" "00000")),
           ("callset_id", PyVal.str "cs"),
           ("job_max_runtime", PyVal.natV 300),
           ("data_byte_range", PyVal.byteRange (some (0, 0))),
           ("call_id", PyVal.str "00000"),
           ("use_cached_runtime", PyVal.boolV true),
           ("runtime", PyVal.str "rt"),
           ("pywren_version", PyVal.str "0.1"),
           ("runtime_url", PyVal.str ""),
           ("host_submit_time", PyVal.natV 7)]],
       .ok [{ call_id := "00000", callset_id := "cs" }]) ∧
    (((dataSizeOf sampleE 99 [5] none < sampleE.maxAggDataSize ∧ true = true) →
      Event.putData (Key.aggDataKey sampleE.storagePfx "cs")
        (agg_data (dataStrsOf sampleE 99 [5] none)).1 ∈
        ([Event.serializerCall 2,
          Event.putData (Key.aggDataKey "p" "cs") [5],
          Event.putFunc (Key.funcKey "p" "cs") [99, 2],
          Event.invoke
            [("storage_config", PyVal.str "cfg"),
             ("func_key", PyVal.keyV (Key.funcKey "p" "cs")),
             ("data_key", PyVal.keyV (Key.aggDataKey "p" "cs")),
             ("output_key", PyVal.keyV (Key.outputKey "p" "cs" "00000")),
             ("status_key", PyVal.keyV (Key.statusKey "p" "cs" "00000")),
             ("cancel_key", PyVal.keyV (Key.cancelKey "p" "cs" "00000")),
             ("callset_id", PyVal.str "cs"),
             ("job_max_runtime", PyVal.natV 300),
             ("data_byte_range", PyVal.byteRange (some (0, 0))),
             ("call_id", PyVal.str "00000"),
             ("use_cached_runtime", PyVal.boolV true),
             ("runtime", PyVal.str "rt"),
             ("pywren_version", PyVal.str "0.1"),
             ("runtime_url", PyVal.str ""),
             ("host_submit_time", PyVal.natV 7)]] : List Event) ∧
      (∀ e ∈ ([Event.serializerCall 2,
          Event.putData (Key.aggDataKey "p" "cs") [5],
          Event.putFunc (Key.funcKey "p" "cs") [99, 2],
          Event.invoke
            [("storage_config", PyVal.str "cfg"),
             ("func_key", PyVal.keyV (Key.funcKey "p" "cs")),
             ("data_key", PyVal.keyV (Key.aggDataKey "p" "cs")),
             ("output_key", PyVal.keyV (Key.outputKey "p" "cs" "00000")),
             ("status_key", PyVal.keyV (Key.statusKey "p" "cs" "00000")),
             ("cancel_key", PyVal.keyV (Key.cancelKey "p" "cs" "00000")),
             ("callset_id", PyVal.str "cs"),
             ("job_max_runtime", PyVal.natV 300),
             ("data_byte_range", PyVal.byteRange (some (0, 0))),
             ("call_id", PyVal.str "00000"),
             ("use_cached_runtime", PyVal.boolV true),
             ("runtime", PyVal.str "rt"),
             ("pywren_version", PyVal.str "0.1"),
             ("runtime_url", PyVal.str ""),
             ("host_submit_time", PyVal.natV 7)]] : List Event), e.isPutData = true →
        e = Event.putData (Key.aggDataKey sampleE.storagePfx "cs")
          (agg_data (dataStrsOf sampleE 99 [5] none)).1) ∧
      (∀ i, i < ([5] : List Nat).length → ∃ (d : Dict) (r : Int × Int),
        (agg_data (dataStrsOf sampleE 99 [5] none)).2.get? i = some r ∧
        Event.invoke d ∈ ([Event.serializerCall 2,
          Event.putData (Key.aggDataKey "p" "cs") [5],
          Event.putFunc (Key.funcKey "p" "cs") [99, 2],
          Event.invoke
            [("storage_config", PyVal.str "cfg"),
             ("func_key", PyVal.keyV (Key.funcKey "p" "cs")),
             ("data_key", PyVal.keyV (Key.aggDataKey "p" "cs")),
             ("output_key", PyVal.keyV (Key.outputKey "p" "cs" "00000")),
             ("status_key", PyVal.keyV (Key.statusKey "p" "cs" "00000")),
             ("cancel_key", PyVal.keyV (Key.cancelKey "p" "cs" "00000")),
             ("callset_id", PyVal.str "cs"),
             ("job_max_runtime", PyVal.natV 300),
             ("data_byte_range", PyVal.byteRange (some (0, 0))),
             ("call_id", PyVal.str "00000"),
             ("use_cached_runtime", PyVal.boolV true),
             ("runtime", PyVal.str "rt"),
             ("pywren_version", PyVal.str "0.1"),
             ("runtime_url", PyVal.str ""),
             ("host_submit_time", PyVal.natV 7)]] : List Event) ∧
        dictGet d "call_id" = some (.str (format05 i)) ∧
        dictGet d "data_key" = some (.keyV (Key.aggDataKey sampleE.storagePfx "cs")) ∧
        dictGet d "data_byte_range" = some (.byteRange (some r)))) ∧
    (¬ (dataSizeOf sampleE 99 [5] none < sampleE.maxAggDataSize ∧ true = true) →
      (∀ e ∈ ([Event.serializerCall 2,
          Event.putData (Key.aggDataKey "p" "cs") [5],
          Event.putFunc (Key.funcKey "p" "cs") [99, 2],
          Event.invoke
            [("storage_config", PyVal.str "cfg"),
             ("func_key", PyVal.keyV (Key.funcKey "p" "cs")),
             ("data_key", PyVal.keyV (Key.aggDataKey "p" "cs")),
             ("output_key", PyVal.keyV (Key.outputKey "p" "cs" "00000")),
             ("status_key", PyVal.keyV (Key.statusKey "p" "cs" "00000")),
             ("cancel_key", PyVal.keyV (Key.cancelKey "p" "cs" "00000")),
             ("callset_id", PyVal.str "cs"),
             ("job_max_runtime", PyVal.natV 300),
             ("data_byte_range", PyVal.byteRange (some (0, 0))),
             ("call_id", PyVal.str "00000"),
             ("use_cached_runtime", PyVal.boolV true),
             ("runtime", PyVal.str "rt"),
             ("pywren_version", PyVal.str "0.1"),
             ("runtime_url", PyVal.str ""),
             ("host_submit_time", PyVal.natV 7)]] : List Event), e.isPutData = true →
        ∃ i, i < ([5] : List Nat).length ∧
        e = Event.putData (Key.dataKey sampleE.storagePfx "cs" (format05 i))
          ((dataStrsOf sampleE 99 [5] none).getD i [])) ∧
      (∀ i, i < ([5] : List Nat).length →
        Event.putData (Key.dataKey sampleE.storagePfx "cs" (format05 i))
          ((dataStrsOf sampleE 99 [5] none).getD i []) ∈ ([Event.serializerCall 2,
          Event.putData (Key.aggDataKey "p" "cs") [5],
          Event.putFunc (Key.funcKey "p" "cs") [99, 2],
          Event.invoke
            [("storage_config", PyVal.str "cfg"),
             ("func_key", PyVal.keyV (Key.funcKey "p" "cs")),
             ("data_key", PyVal.keyV (Key.aggDataKey "p" "cs")),
             ("output_key", PyVal.keyV (Key.outputKey "p" "cs" "00000")),
             ("status_key", PyVal.keyV (Key.statusKey "p" "cs" "00000")),
             ("cancel_key", PyVal.keyV (Key.cancelKey "p" "cs" "00000")),
             ("callset_id", PyVal.str "cs"),
             ("job_max_runtime", PyVal.natV 300),
             ("data_byte_range", PyVal.byteRange (some (0, 0))),
             ("call_id", PyVal.str "00000"),
             ("use_cached_runtime", PyVal.boolV true),
             ("runtime", PyVal.str "rt"),
             ("pywren_version", PyVal.str "0.1"),
             ("runtime_url", PyVal.str ""),
             ("host_submit_time", PyVal.natV 7)]] : List Event) ∧
        ∃ d : Dict, Event.invoke d ∈ ([Event.serializerCall 2,
          Event.putData (Key.aggDataKey "p" "cs") [5],
          Event.putFunc (Key.funcKey "p" "cs") [99, 2],
          Event.invoke
            [("storage_config", PyVal.str "cfg"),
             ("func_key", PyVal.keyV (Key.funcKey "p" "cs")),
             ("data_key", PyVal.keyV (Key.aggDataKey "p" "cs")),
             ("output_key", PyVal.keyV (Key.outputKey "p" "cs" "00000")),
             ("status_key", PyVal.keyV (Key.statusKey "p" "cs" "00000")),
             ("cancel_key", PyVal.keyV (Key.cancelKey "p" "cs" "00000")),
             ("callset_id", PyVal.str "cs"),
             ("job_max_runtime", PyVal.natV 300),
             ("data_byte_range", PyVal.byteRange (some (0, 0))),
             ("call_id", PyVal.str "00000"),
             ("use_cached_runtime", PyVal.boolV true),
             ("runtime", PyVal.str "rt"),
             ("pywren_version", PyVal.str "0.1"),
             ("runtime_url", PyVal.str ""),
             ("host_submit_time", PyVal.natV 7)]] : List Event) ∧
          dictGet d "call_id" = some (.str (format05 i)) ∧
          dictGet d "data_key" = some (.keyV (Key.dataKey sampleE.storagePfx "cs" (format05 i))) ∧
          dictGet d "data_byte_range" = some (.byteRange none)))) :=
  ⟨fun b xs => by simp [sampleE], by decide, by decide, rfl,
    map_aggregation_decision sampleE 99 [5] none none true true none none "cs" [0]
      (fun b xs => by simp [sampleE]) (by decide) (by decide) _ _ rfl⟩

/-- **C8.** `reduce` waits (with the all-completed predicate) on every
supplied handle before building or dispatching anything: any failed handle
makes `reduce` propagate a failure to its caller with no reduction built or
dispatched, and a dispatched reduction implies every supplied handle had
reached the terminal successful state. -/
theorem reduce_fail_fast (E : Executor α) (rfunc futsVal : α) (states : List HandleState)
    (ee : Option (List (String × String))) (em : Option (List (String × PyVal)))
    (cs : String) (sched : List Nat) :
    ((∃ j e, states.get? j = some (.failed e)) →
      ∃ e', reduce E rfunc futsVal states ee em cs sched = .propagated e') ∧
    (∀ tr r, reduce E rfunc futsVal states ee em cs sched = .dispatched tr r →
      ∀ s ∈ states, ∃ v, s = .success v) := by
  constructor
  · rintro ⟨j, e, hj⟩
    have hmem : HandleState.failed e ∈ states := List.get?_mem hj
    have hfind : (states.find?
        (fun h => match h with | .failed _ => true | _ => false)).isSome := by
      rw [List.find?_isSome]
      exact ⟨_, hmem, rfl⟩
    obtain ⟨x, hx⟩ := Option.isSome_iff_exists.mp hfind
    have hpx := List.find?_some hx
    cases x with
    | failed e' => exact ⟨e', by simp [reduce, waitAllCompleted, hx]⟩
    | success v => simp at hpx
    | running => simp at hpx
  · intro tr r h s hs
    simp only [reduce, waitAllCompleted] at h
    cases hfind : states.find? (fun h => match h with | .failed _ => true | _ => false) with
    | some x =>
      have hpx := List.find?_some hfind
      cases x with
      | failed e' =>
        rw [hfind] at h
        simp at h
      | success v => simp at hpx
      | running => simp at hpx
    | none =>
      rw [hfind] at h
      by_cases hall : states.all (fun h => match h with | .success _ => true | _ => false) = true
      · have hs' := List.all_eq_true.mp hall s hs
        cases s with
        | success v => exact ⟨v, rfl⟩
        | failed e' => simp at hs'
        | running => simp at hs'
      · rw [if_neg hall] at h
        simp at h

theorem reduce_fail_fast_witness :
    (∃ e', reduce sampleE 0 0 [HandleState.success 1, HandleState.failed .itemLimit]
      none none "cs" [0] = .propagated e') ∧
    (∀ s ∈ ([HandleState.success 1] : List HandleState), ∃ v, s = .success v) :=
  ⟨(reduce_fail_fast sampleE 0 0 [HandleState.success 1, HandleState.failed .itemLimit]
      none none "cs" [0]).1 ⟨1, .itemLimit, rfl⟩,
   (reduce_fail_fast sampleE 0 0 [HandleState.success 1] none none "cs" [0]).2
     [Event.serializerCall 2,
      Event.putData (Key.aggDataKey "p" "cs") [0],
      Event.putFunc (Key.funcKey "p" "cs") [0, 2],
      Event.invoke
        [("storage_config", PyVal.str "cfg"),
         ("func_key", PyVal.keyV (Key.funcKey "p" "cs")),
         ("data_key", PyVal.keyV (Key.aggDataKey "p" "cs")),
         ("output_key", PyVal.keyV (Key.outputKey "p" "cs" "00000")),
         ("status_key", PyVal.keyV (Key.statusKey "p" "cs" "00000")),
         ("cancel_key", PyVal.keyV (Key.cancelKey "p" "cs" "00000")),
         ("callset_id", PyVal.str "cs"),
         ("job_max_runtime", PyVal.natV 300),
         ("data_byte_range", PyVal.byteRange (some (0, 0))),
         ("call_id", PyVal.str "00000"),
         ("use_cached_runtime", PyVal.boolV true),
         ("runtime", PyVal.str "rt"),
         ("pywren_version", PyVal.str "0.1"),
         ("runtime_url", PyVal.str ""),
         ("host_submit_time", PyVal.natV 7)]]
     (.ok { call_id := "00000", callset_id := "cs" }) rfl⟩

/-- **C9.** `parse_module_dependencies` fails whenever both shared-storage
modes are requested together — with an empty trace, so before any
serialization or storage operation (the mode check is an assert preceded only
by the hint assert, so the failure is the mutual-exclusion error whenever a
hint is supplied) — and requesting at most one of the two modes never
produces the mutual-exclusion failure. -/
theorem parse_exclusive_modes (E : Executor α) (func : α) (hint : Option String)
    (fs ss : Bool) :
    (fs = true → ss = true →
      (parse_module_dependencies E func hint fs ss).1 = [] ∧
      ∃ e, (parse_module_dependencies E func hint fs ss).2 = .error e ∧
        (hint.isSome = true → e = .exclusiveModes)) ∧
    (¬ (fs = true ∧ ss = true) →
      (parse_module_dependencies E func hint fs ss).2 ≠ .error .exclusiveModes) := by
  constructor
  · intro hfs hss
    subst hfs
    subst hss
    cases hint with
    | none => exact ⟨rfl, .assertHintNone, rfl, fun hc => by simp at hc⟩
    | some s => exact ⟨rfl, .exclusiveModes, rfl, fun _ => rfl⟩
  · intro hno
    cases hint with
    | none => simp [parse_module_dependencies]
    | some s =>
      cases fs with
      | true =>
        have hss : ss = false := by
          cases ss with
          | true => exact absurd ⟨rfl, rfl⟩ hno
          | false => rfl
        subst hss
        simp [parse_module_dependencies]
      | false =>
        cases ss with
        | true => simp [parse_module_dependencies]
        | false => simp [parse_module_dependencies]

theorem parse_exclusive_modes_witness :
    ((parse_module_dependencies sampleE 0 (some "hint") true true).1 = [] ∧
      ∃ e, (parse_module_dependencies sampleE 0 (some "hint") true true).2 = .error e ∧
        ((some "hint").isSome = true → e = .exclusiveModes)) ∧
    ((parse_module_dependencies sampleE 0 (some "hint") true false).2 ≠
      .error .exclusiveModes) :=
  ⟨(parse_exclusive_modes sampleE 0 (some "hint") true true).1 rfl rfl,
   (parse_exclusive_modes sampleE 0 (some "hint") true false).2 (by simp)⟩

end PyWrenSpec
